import Mathlib

/-!
# OpenFlow controller core: wire codec, stream framer, switch manager

A shallow embedding of `openflow10/flowmod.go`, `stream.go` and `core/switch.go`.

Conventions of the embedding:

* a byte is a `UInt8`, a Go `[]byte` is a `List UInt8`;
* the unsigned fields (`uint8`, `uint16`, `uint32`, `uint64`) are natural numbers, reduced
  modulo `2 ^ w` wherever the Go code stores or adds them;
* a Go run-time fault (slice or index out of range) is an explicit outcome: `Checked.fault` in
  the helpers that read or write a slice, `Run.fault` for a decoder;
* a method with a pointer receiver returns the receiver after the call next to its Go results;
* the `for n < Length` loop of the decoder takes a fuel argument; running out of fuel is `none`.
-/

namespace Openflow10

/-- Go `error` values. -/
abbrev Err := String

/-! ## Slices and `encoding/binary` (big endian) -/

/-- The outcome of an operation that Go checks at run time: `fault` is the panic of an index or
slice out of range. -/
inductive Checked (α : Type) where
  | fault : Checked α
  | ok (a : α) : Checked α
deriving DecidableEq, Repr

/-- Sequencing: a fault ends the computation. -/
@[noinline]
def Checked.bind {α β : Type} (x : Checked α) (f : α → Checked β) : Checked β :=
  match x with
  | .fault => .fault
  | .ok a => f a

instance : Monad Checked where
  pure := Checked.ok
  bind := Checked.bind

/-- Go `data[n:]`: the tail from index `n`; faults when `n > len(data)`. -/
def sliceFrom (data : List UInt8) (n : Nat) : Checked (List UInt8) :=
  if n ≤ data.length then .ok (data.drop n) else .fault

/-- Go `data[n]`: faults when `n ≥ len(data)`. -/
def index (data : List UInt8) (n : Nat) : Checked UInt8 :=
  match data.get? n with
  | some b => .ok b
  | none => .fault

/-- Go `data[n] = b`: faults when `n ≥ len(data)`. -/
def setIndex (data : List UInt8) (n : Nat) (b : UInt8) : Checked (List UInt8) :=
  if n < data.length then .ok (data.set n b) else .fault

/-- The `w` big-endian bytes of `v mod 2^(8w)`, most significant first. -/
def beBytes : Nat → Nat → List UInt8
  | 0, _ => []
  | w + 1, v => UInt8.ofNat (v / 256 ^ w) :: beBytes w v

/-- The value of a big-endian byte string. -/
def beValue (bs : List UInt8) : Nat :=
  bs.foldl (fun acc b => acc * 256 + b.toNat) 0

/-- Overwrite `dst` from index `n` on with `src`, as far as `dst` reaches: the effect of Go
`copy(dst[n:], src)` when `n ≤ len(dst)`. -/
def overwrite (dst : List UInt8) (n : Nat) (src : List UInt8) : List UInt8 :=
  dst.take n ++ (src.take (dst.length - n) ++ dst.drop (n + src.length))

/-- Go `copy(dst[n:], src)`: faults on the slice when `n > len(dst)`. -/
def copyAt (dst : List UInt8) (n : Nat) (src : List UInt8) : Checked (List UInt8) :=
  if n ≤ dst.length then .ok (overwrite dst n src) else .fault

/-- Write `w` big-endian bytes at offset `n`, as `binary.BigEndian.PutUintXX(b[n:], v)` does;
faults when fewer than `w` bytes remain from `n`. -/
def putUint (w : Nat) (b : List UInt8) (n v : Nat) : Checked (List UInt8) :=
  if n + w ≤ b.length then .ok (overwrite b n (beBytes w v)) else .fault

/-- `binary.BigEndian.PutUint16(b[n:], v)`. -/
def PutUint16 (b : List UInt8) (n v : Nat) : Checked (List UInt8) := putUint 2 b n v

/-- `binary.BigEndian.PutUint32(b[n:], v)`. -/
def PutUint32 (b : List UInt8) (n v : Nat) : Checked (List UInt8) := putUint 4 b n v

/-- `binary.BigEndian.PutUint64(b[n:], v)`. -/
def PutUint64 (b : List UInt8) (n v : Nat) : Checked (List UInt8) := putUint 8 b n v

/-- Read `w` big-endian bytes at offset `n`, as `binary.BigEndian.UintXX(data[n:])` does; faults
when fewer than `w` bytes remain from `n`. -/
def getUint (w : Nat) (data : List UInt8) (n : Nat) : Checked Nat :=
  match sliceFrom data n with
  | .fault => .fault
  | .ok d => if w ≤ d.length then .ok (beValue (d.take w)) else .fault

/-- `binary.BigEndian.Uint16(data[n:])`. -/
def Uint16 (data : List UInt8) (n : Nat) : Checked Nat := getUint 2 data n

/-- `binary.BigEndian.Uint32(data[n:])`. -/
def Uint32 (data : List UInt8) (n : Nat) : Checked Nat := getUint 4 data n

/-- `binary.BigEndian.Uint64(data[n:])`. -/
def Uint64 (data : List UInt8) (n : Nat) : Checked Nat := getUint 8 data n

/-- Go `make([]byte, n)`. -/
def makeBytes (n : Nat) : List UInt8 := List.replicate n 0

/-! ## The header (`openflowxx.Header`) -/

/-- The common message prefix `openflowxx.Header`: version (uint8), type (uint8, the field
`Type` of the source), total length (uint16) and transaction id (uint32). -/
structure Header where
  Version : Nat
  Type_ : Nat
  Length : Nat
  Xid : Nat
deriving DecidableEq, Repr

/-- Modelled from the spec: `openflowxx.Header.Len` is not among the sources; the header occupies
a constant 8 bytes. -/
def Header.Len (_h : Header) : Nat := 8

/-- Modelled from the spec: `openflowxx.Header.MarshalBinary` is not among the sources; the wire
header is version (1 byte), type (1 byte), length (2 bytes, big endian), transaction id (4 bytes,
big endian). -/
def Header.MarshalBinary (h : Header) : List UInt8 × Option Err :=
  (beBytes 1 h.Version ++ beBytes 1 h.Type_ ++ beBytes 2 h.Length ++ beBytes 4 h.Xid, none)

/-- Modelled from the spec: `openflowxx.Header.UnmarshalBinary` is not among the sources; it reads
the four fields of the 8-byte wire header and reports an error on truncated input, leaving the
receiver as it was. -/
def Header.UnmarshalBinary (h : Header) (data : List UInt8) : Header × Option Err :=
  if data.length < 8 then (h, some "header: input too short")
  else
    ({ Version := beValue (data.take 1)
       Type_ := beValue ((data.drop 1).take 1)
       Length := beValue ((data.drop 2).take 2)
       Xid := beValue ((data.drop 4).take 4) }, none)

/-- Modelled from the spec: `openflowxx.Header.Equal` is not among the sources; two headers are
equal when their four fields are. -/
def Header.Equal (h other : Header) : Bool :=
  h.Version == other.Version && h.Type_ == other.Type_ && h.Length == other.Length
    && h.Xid == other.Xid

/-! ## Match and Action, whose code is outside the sources -/

/-- The operations of `openflow10.Match` that the messages use. The type and its methods are not
among the sources, so they are parameters; the sub-decoder returns the receiver after the call
and its error value. -/
structure MatchCodec (μ : Type) where
  MarshalBinary : μ → List UInt8 × Option Err
  UnmarshalBinary : μ → List UInt8 → μ × Option Err
  Equal : μ → μ → Bool

/-- Modelled from the spec: `Match.Len` is not among the sources; a Match has the fixed encoded
length 40. -/
def MatchCodec.Len {μ : Type} (_M : MatchCodec μ) (_m : μ) : Nat := 40

/-- The operations of the `Action` interface and the package function `DecodeAction`, which are
not among the sources, as parameters. `Len` is a `uint16` and is reduced modulo `2 ^ 16` where it
is used; `MarshalBinary` yields its bytes or its error. -/
structure ActionCodec (α : Type) where
  Len : α → Nat
  MarshalBinary : α → Except Err (List UInt8)
  DecodeAction : List UInt8 → Except Err α
  Equal : α → α → Bool

/-! ## FlowMod (`ofp_flow_mod`) -/

/-- The struct `FlowMod`. -/
structure FlowMod (μ α : Type) where
  Header : Header
  Match : μ
  Cookie : Nat
  Command : Nat
  IdleTimeout : Nat
  HardTimeout : Nat
  Priority : Nat
  BufferId : Nat
  OutPort : Nat
  Flags : Nat
  Actions : List α
deriving DecidableEq, Repr

/-- `ofp_flow_mod_command`: `OFPFC_ADD`. -/
def FC_ADD : Nat := 0
/-- `ofp_flow_mod_command`: `OFPFC_MODIFY`. -/
def FC_MODIFY : Nat := 1
/-- `ofp_flow_mod_command`: `OFPFC_MODIFY_STRICT`. -/
def FC_MODIFY_STRICT : Nat := 2
/-- `ofp_flow_mod_command`: `OFPFC_DELETE`. -/
def FC_DELETE : Nat := 3
/-- `ofp_flow_mod_command`: `OFPFC_DELETE_STRICT`. -/
def FC_DELETE_STRICT : Nat := 4

section FlowModDefs

variable {μ α : Type}

/-- `NewFlowMod`. The header built by `openflowxx.NewHeader(VERSION, Type_FlowMod)`, the match
built by `NewMatch()` and the constant `P_NONE` are not among the sources and are arguments. -/
def NewFlowMod (newHeader : Header) (newMatch : μ) (P_NONE : Nat) : FlowMod μ α :=
  { Header := newHeader
    Match := newMatch
    Cookie := 0
    Command := 0
    IdleTimeout := 0
    HardTimeout := 0
    Priority := 0
    BufferId := 0xffffffff
    OutPort := P_NONE
    Flags := 0
    Actions := [] }

/-- The loop `for i, action := range f.Actions` of `FlowMod.Equal`, over lists of equal length. -/
def actionsEqual (A : ActionCodec α) : List α → List α → Bool
  | a :: as, b :: bs => if !A.Equal a b then false else actionsEqual A as bs
  | _, _ => true

/-- `FlowMod.Equal` (on an argument that is a `*FlowMod`). -/
def FlowMod.Equal (M : MatchCodec μ) (A : ActionCodec α) (f other : FlowMod μ α) : Bool :=
  if !(f.Header.Equal other.Header &&
      M.Equal f.Match other.Match &&
      f.Cookie == other.Cookie &&
      f.Command == other.Command &&
      f.IdleTimeout == other.IdleTimeout &&
      f.HardTimeout == other.HardTimeout &&
      f.Priority == other.Priority &&
      f.BufferId == other.BufferId &&
      f.OutPort == other.OutPort &&
      f.Flags == other.Flags) then false
  else if f.Actions.length != other.Actions.length then false
  else actionsEqual A f.Actions other.Actions

/-- `FlowMod.AddAction`. -/
def FlowMod.AddAction (f : FlowMod μ α) (a : α) : FlowMod μ α :=
  { f with Actions := f.Actions ++ [a] }

/-- `FlowMod.Len`: 72, plus the lengths of the actions unless the command is a delete; the sum
is a `uint16`. -/
def FlowMod.Len (A : ActionCodec α) (f : FlowMod μ α) : Nat :=
  if f.Command = FC_DELETE ∨ f.Command = FC_DELETE_STRICT then 72
  else f.Actions.foldl (fun n v => (n + A.Len v % 65536) % 65536) 72

/-- What a `MarshalBinary` call leaves: the receiver after the call, the returned bytes (`nil`
is the empty list) and the returned error. -/
structure Marshalled (φ : Type) where
  self : φ
  data : List UInt8
  err : Option Err
deriving DecidableEq, Repr

/-- The loop `for _, a := range f.Actions` of `FlowMod.MarshalBinary`: the bytes and the error
that the function returns from there. -/
def marshalActions (A : ActionCodec α) : List α → List UInt8 → Option Err → List UInt8 × Option Err
  | [], data, err => (data, err)
  | a :: as, data, _ =>
    match A.MarshalBinary a with
    | .error e => ([], some e)
    | .ok bytes => marshalActions A as (data ++ bytes) none

/-- `FlowMod.MarshalBinary`. -/
def FlowMod.MarshalBinary (M : MatchCodec μ) (A : ActionCodec α) (f : FlowMod μ α) :
    Checked (Marshalled (FlowMod μ α)) := do
  let f := { f with Header := { f.Header with Length := FlowMod.Len A f } }
  let (data, _) := f.Header.MarshalBinary
  let (bytes, err) := M.MarshalBinary f.Match
  let data := data ++ bytes
  let bytes := makeBytes 24
  let n := 0
  let bytes ← PutUint64 bytes n f.Cookie
  let n := n + 8
  let bytes ← PutUint16 bytes n f.Command
  let n := n + 2
  let bytes ← PutUint16 bytes n f.IdleTimeout
  let n := n + 2
  let bytes ← PutUint16 bytes n f.HardTimeout
  let n := n + 2
  let bytes ← PutUint16 bytes n f.Priority
  let n := n + 2
  let bytes ← PutUint32 bytes n f.BufferId
  let n := n + 4
  let bytes ← PutUint16 bytes n f.OutPort
  let n := n + 2
  let bytes ← PutUint16 bytes n f.Flags
  let data := data ++ bytes
  let (data, err) := marshalActions A f.Actions data err
  pure { self := f, data := data, err := err }

/-- How a decoder call ends: with a run-time fault (a Go panic), or by returning, leaving the
receiver `self` and the error value `err`. -/
inductive Run (σ : Type) where
  | fault : Run σ
  | ret (self : σ) (err : Option Err) : Run σ
deriving DecidableEq, Repr

/-- The straight-line part of `FlowMod.UnmarshalBinary` (up to `Flags`): the receiver and the
offset `n` it leaves. The errors of the two sub-decoders are not looked at. The fields are read
in the order of the source; the receiver is put together at the end. -/
def FlowMod.decodeFixed (M : MatchCodec μ) (f : FlowMod μ α) (data : List UInt8) :
    Checked (FlowMod μ α × Nat) := do
  let n := 0
  let d ← sliceFrom data n
  let header := (f.Header.UnmarshalBinary d).1
  let n := n + header.Len
  let d ← sliceFrom data n
  let mtch := (M.UnmarshalBinary f.Match d).1
  let n := n + M.Len mtch
  let cookie ← Uint64 data n
  let n := n + 8
  let command ← Uint16 data n
  let n := n + 2
  let idleTimeout ← Uint16 data n
  let n := n + 2
  let hardTimeout ← Uint16 data n
  let n := n + 2
  let priority ← Uint16 data n
  let n := n + 2
  let bufferId ← Uint32 data n
  let n := n + 4
  let outPort ← Uint16 data n
  let n := n + 2
  let flags ← Uint16 data n
  let n := n + 2
  pure ({ Header := header, Match := mtch, Cookie := cookie, Command := command,
          IdleTimeout := idleTimeout, HardTimeout := hardTimeout, Priority := priority,
          BufferId := bufferId, OutPort := outPort, Flags := flags, Actions := f.Actions }, n)

/-- The loop `for n < int(f.Header.Length)` of `FlowMod.UnmarshalBinary`; `none` is fuel
exhausted. -/
def FlowMod.decodeActions (A : ActionCodec α) (data : List UInt8) :
    Nat → FlowMod μ α → Nat → Option (Run (FlowMod μ α))
  | 0, _, _ => none
  | fuel + 1, f, n =>
    if n < f.Header.Length then
      match sliceFrom data n with
      | .fault => some .fault
      | .ok d =>
        match A.DecodeAction d with
        | .error e => some (.ret f (some e))
        | .ok a =>
          FlowMod.decodeActions A data fuel { f with Actions := f.Actions ++ [a] }
            (n + A.Len a % 65536)
    else some (.ret f none)

/-- `FlowMod.UnmarshalBinary`; `none` is fuel exhausted. -/
def FlowMod.UnmarshalBinary (M : MatchCodec μ) (A : ActionCodec α) (fuel : Nat)
    (f : FlowMod μ α) (data : List UInt8) : Option (Run (FlowMod μ α)) :=
  match FlowMod.decodeFixed M f data with
  | .fault => some .fault
  | .ok (f, n) => FlowMod.decodeActions A data fuel f n

/-- The 24 bytes that follow the match in a FlowMod: the fixed fields, each big endian. -/
def fixedFields (f : FlowMod μ α) : List UInt8 :=
  beBytes 8 f.Cookie ++ beBytes 2 f.Command ++ beBytes 2 f.IdleTimeout ++ beBytes 2 f.HardTimeout
    ++ beBytes 2 f.Priority ++ beBytes 4 f.BufferId ++ beBytes 2 f.OutPort ++ beBytes 2 f.Flags

/-- The bytes an action marshals to; empty when marshalling fails. -/
def actionBytes (A : ActionCodec α) (a : α) : List UInt8 :=
  match A.MarshalBinary a with
  | .ok e => e
  | .error _ => []

/-- An action that the codec takes to exactly its own `Len()` bytes, a positive number, and
back to an equal action of the same length, whatever bytes follow its own. -/
def ActionCodec.RoundTrips (A : ActionCodec α) (a : α) : Prop :=
  A.MarshalBinary a = .ok (actionBytes A a) ∧ (actionBytes A a).length = A.Len a ∧
    0 < A.Len a ∧
    ∀ rest, ∃ b, A.DecodeAction (actionBytes A a ++ rest) = .ok b ∧ A.Equal a b = true ∧
      A.Len b = A.Len a

/-- The ranges of the Go types of the fields that go on the wire. -/
def FlowMod.WellTyped (f : FlowMod μ α) : Prop :=
  f.Header.Version < 2 ^ 8 ∧ f.Header.Type_ < 2 ^ 8 ∧ f.Header.Xid < 2 ^ 32 ∧
  f.Cookie < 2 ^ 64 ∧ f.Command < 2 ^ 16 ∧ f.IdleTimeout < 2 ^ 16 ∧ f.HardTimeout < 2 ^ 16 ∧
  f.Priority < 2 ^ 16 ∧ f.BufferId < 2 ^ 32 ∧ f.OutPort < 2 ^ 16 ∧ f.Flags < 2 ^ 16

/-- An action that marshals to exactly its own `Len()` bytes, a positive number, from which
`DecodeAction` returns the action itself, whatever bytes follow. -/
def ActionCodec.DecodesExactly (A : ActionCodec α) (a : α) : Prop :=
  A.MarshalBinary a = .ok (actionBytes A a) ∧ (actionBytes A a).length = A.Len a ∧
    0 < A.Len a ∧ ∀ rest, A.DecodeAction (actionBytes A a ++ rest) = .ok a

end FlowModDefs

/-! ## FlowRemoved (`ofp_flow_removed`) -/

/-- The struct `FlowRemoved`; `pad` and `pad2` are byte slices. -/
structure FlowRemoved (μ : Type) where
  Header : Header
  Match : μ
  Cookie : Nat
  Priority : Nat
  Reason : Nat
  pad : List UInt8
  DurationSec : Nat
  DurationNSec : Nat
  IdleTimeout : Nat
  pad2 : List UInt8
  PacketCount : Nat
  ByteCount : Nat
deriving DecidableEq, Repr

section FlowRemovedDefs

variable {μ : Type}

/-- `NewFlowRemoved`. The header built by `openflowxx.NewHeader(VERSION, Type_FlowRemoved)` and
the match built by `NewMatch()` are not among the sources and are arguments. -/
def NewFlowRemoved (newHeader : Header) (newMatch : μ) : FlowRemoved μ :=
  { Header := newHeader
    Match := newMatch
    Cookie := 0
    Priority := 0
    Reason := 0
    pad := makeBytes 1
    DurationSec := 0
    DurationNSec := 0
    IdleTimeout := 0
    pad2 := makeBytes 2
    PacketCount := 0
    ByteCount := 0 }

/-- `FlowRemoved.Len`, a `uint16`. -/
def FlowRemoved.Len (M : MatchCodec μ) (f : FlowRemoved μ) : Nat :=
  ((f.Header.Len + M.Len f.Match) % 65536 + 42) % 65536

/-- `FlowRemoved.MarshalBinary`. -/
def FlowRemoved.MarshalBinary (M : MatchCodec μ) (f : FlowRemoved μ) :
    Checked (Marshalled (FlowRemoved μ)) := do
  let data := makeBytes (FlowRemoved.Len M f)
  let next := 0
  let (bytes, _) := f.Header.MarshalBinary
  let data ← copyAt data next bytes
  let next := next + f.Header.Len
  let (bytes, err) := M.MarshalBinary f.Match
  let data ← copyAt data next bytes
  let next := next + M.Len f.Match
  let data ← PutUint64 data next f.Cookie
  let next := next + 8
  let data ← PutUint16 data next f.Priority
  let next := next + 2
  let data ← setIndex data next (UInt8.ofNat f.Reason)
  let next := next + 1
  let data ← copyAt data next f.pad
  let next := next + f.pad.length
  let data ← PutUint32 data next f.DurationSec
  let next := next + 4
  let data ← PutUint32 data next f.DurationNSec
  let next := next + 4
  let data ← PutUint16 data next f.IdleTimeout
  let next := next + 2
  let data ← copyAt data next f.pad2
  let next := next + f.pad2.length
  let data ← PutUint64 data next f.PacketCount
  let next := next + 8
  let data ← PutUint64 data next f.ByteCount
  pure { self := f, data := data, err := err }

/-- `FlowRemoved.UnmarshalBinary`: the receiver after the call and the returned error, which is
the one of the Match sub-decoder (the assignment from the Header sub-decoder is overwritten). The
fields are read in the order of the source; the receiver is put together at the end. -/
def FlowRemoved.decode (M : MatchCodec μ) (f : FlowRemoved μ) (data : List UInt8) :
    Checked (FlowRemoved μ × Option Err) := do
  let next := 0
  let d ← sliceFrom data next
  let header := (f.Header.UnmarshalBinary d).1
  let next := next + header.Len
  let d ← sliceFrom data next
  let mtch := (M.UnmarshalBinary f.Match d).1
  let err := (M.UnmarshalBinary f.Match d).2
  let next := next + M.Len mtch
  let cookie ← Uint64 data next
  let next := next + 8
  let priority ← Uint16 data next
  let next := next + 2
  let reason ← index data next
  let next := next + 1
  let d ← sliceFrom data next
  let pad := overwrite f.pad 0 d
  let next := next + f.pad.length
  let durationSec ← Uint32 data next
  let next := next + 4
  let durationNSec ← Uint32 data next
  let next := next + 4
  let idleTimeout ← Uint16 data next
  let next := next + 2
  let d ← sliceFrom data next
  let pad2 := overwrite f.pad2 0 d
  let next := next + f.pad2.length
  let packetCount ← Uint64 data next
  let next := next + 8
  let byteCount ← Uint64 data next
  pure ({ Header := header, Match := mtch, Cookie := cookie, Priority := priority,
          Reason := reason.toNat, pad := pad, DurationSec := durationSec,
          DurationNSec := durationNSec, IdleTimeout := idleTimeout, pad2 := pad2,
          PacketCount := packetCount, ByteCount := byteCount }, err)

/-- `FlowRemoved.UnmarshalBinary` as a run: a fault, or the receiver and the error returned. -/
def FlowRemoved.UnmarshalBinary (M : MatchCodec μ) (f : FlowRemoved μ) (data : List UInt8) :
    Run (FlowRemoved μ) :=
  match FlowRemoved.decode M f data with
  | .fault => .fault
  | .ok (f, err) => .ret f err

/-- The bytes that follow the match in a FlowRemoved whose pad fields are `pad` and `pad2`. -/
def removedFields (f : FlowRemoved μ) : List UInt8 :=
  beBytes 8 f.Cookie ++ beBytes 2 f.Priority ++ [UInt8.ofNat f.Reason] ++ f.pad
    ++ beBytes 4 f.DurationSec ++ beBytes 4 f.DurationNSec ++ beBytes 2 f.IdleTimeout ++ f.pad2
    ++ beBytes 8 f.PacketCount ++ beBytes 8 f.ByteCount

/-- The ranges of the Go types of the fields of a FlowRemoved that go on the wire. -/
def FlowRemoved.WellTyped (f : FlowRemoved μ) : Prop :=
  f.Header.Version < 2 ^ 8 ∧ f.Header.Type_ < 2 ^ 8 ∧ f.Header.Length < 2 ^ 16 ∧
  f.Header.Xid < 2 ^ 32 ∧ f.Cookie < 2 ^ 64 ∧ f.Priority < 2 ^ 16 ∧ f.Reason < 2 ^ 8 ∧
  f.DurationSec < 2 ^ 32 ∧ f.DurationNSec < 2 ^ 32 ∧ f.IdleTimeout < 2 ^ 16 ∧
  f.PacketCount < 2 ^ 64 ∧ f.ByteCount < 2 ^ 64

end FlowRemovedDefs

/-! ## An instance of the parameters, to evaluate the definitions on concrete messages -/

/-- An output action: a port and the number of bytes to send to the controller. -/
structure ActionOutput where
  Port : Nat
  MaxLen : Nat
deriving DecidableEq, Repr

/-- The OpenFlow 1.0 wire form of an output action: type 0, length 8, port, max_len, each a
big-endian `uint16`. -/
def ActionOutput.encode (a : ActionOutput) : List UInt8 :=
  beBytes 2 0 ++ (beBytes 2 8 ++ (beBytes 2 a.Port ++ beBytes 2 a.MaxLen))

/-- Decoding an output action rejects fewer than 8 bytes and any other type or length. -/
def ActionOutput.decode (d : List UInt8) : Except Err ActionOutput :=
  if d.length < 8 then .error "action: input too short"
  else if beValue (d.take 2) ≠ 0 ∨ beValue ((d.drop 2).take 2) ≠ 8 then
    .error "action: not an output action"
  else .ok { Port := beValue ((d.drop 4).take 2), MaxLen := beValue ((d.drop 6).take 2) }

/-- The codec of output actions. -/
def outputCodec : ActionCodec ActionOutput where
  Len := fun _ => 8
  MarshalBinary := fun a => .ok a.encode
  DecodeAction := ActionOutput.decode
  Equal := fun a b => a == b

/-- A match kept as its 40 wire bytes; decoding rejects fewer than 40 bytes. -/
def rawMatchCodec : MatchCodec (List UInt8) where
  MarshalBinary := fun m => (m.take 40 ++ List.replicate (40 - m.length) 0, none)
  UnmarshalBinary := fun m d =>
    if d.length < 40 then (m, some "match: input too short") else (d.take 40, none)
  Equal := fun a b => a == b

/-- A Match sub-decoder that reports an error on every input. -/
def rejectingMatchCodec : MatchCodec Unit where
  MarshalBinary := fun _ => (List.replicate 40 0, none)
  UnmarshalBinary := fun m _ => (m, some "match: rejected")
  Equal := fun _ _ => true

/-- A delete FlowMod that holds one output action in memory. -/
def deleteWithAction : FlowMod (List UInt8) ActionOutput :=
  { Header := { Version := 1, Type_ := 14, Length := 0, Xid := 7 }
    Match := List.replicate 40 0
    Cookie := 0
    Command := FC_DELETE
    IdleTimeout := 0
    HardTimeout := 0
    Priority := 0
    BufferId := 0xffffffff
    OutPort := 0xffff
    Flags := 0
    Actions := [{ Port := 1, MaxLen := 0 }] }

/-- An add FlowMod with two output actions. -/
def addTwoActions : FlowMod (List UInt8) ActionOutput :=
  { deleteWithAction with
    Command := FC_ADD
    Cookie := 0x0102030405060708
    IdleTimeout := 3
    Actions := [{ Port := 1, MaxLen := 0 }, { Port := 2, MaxLen := 64 }] }

/-- The first 72 bytes of the encoding of `addTwoActions`: header (declaring 88 bytes), match
and fixed fields. -/
def addTwoActionsFixed : List UInt8 :=
  [1, 14, 0, 88, 0, 0, 0, 7] ++ List.replicate 40 0 ++ [1, 2, 3, 4, 5, 6, 7, 8]
    ++ [0, 0, 0, 3, 0, 0, 0, 0] ++ [255, 255, 255, 255, 255, 255, 0, 0]

/-- The 88 bytes of the encoding of `addTwoActions`. -/
def addTwoActionsBytes : List UInt8 :=
  addTwoActionsFixed ++ [0, 0, 0, 8, 0, 1, 0, 0] ++ [0, 0, 0, 8, 0, 2, 0, 64]

/-- A FlowRemoved as `NewFlowRemoved` builds it, with its fields set. -/
def removedSample : FlowRemoved (List UInt8) :=
  { Header := { Version := 1, Type_ := 11, Length := 8, Xid := 9 }
    Match := List.replicate 40 0
    Cookie := 0x0102030405060708
    Priority := 7
    Reason := 2
    pad := makeBytes 1
    DurationSec := 3
    DurationNSec := 4
    IdleTimeout := 5
    pad2 := makeBytes 2
    PacketCount := 6
    ByteCount := 7 }

end Openflow10

/-! ## The inbound framer of `stream.go` -/

namespace Stream

open Openflow10

/-- The variables of `MessageStream.inbound` that live across bytes and reads: `msg`, `hdr`,
`hdrBuf`, the contents of the buffer `buf` being filled, and, in `full`, the buffers sent on
`pool.Full` so far, oldest first. -/
structure Framer where
  msg : Int
  hdr : Nat
  hdrBuf : List UInt8
  buf : List UInt8
  full : List (List UInt8)
deriving DecidableEq, Repr

/-- The state in which `inbound` enters its loop: `msg := 0`, `hdr := 0`,
`hdrBuf := make([]byte, 4)` and a buffer taken from `pool.Empty`, which `NewBufferPool` filled
with empty buffers. -/
def Framer.init : Framer :=
  { msg := 0, hdr := 0, hdrBuf := makeBytes 4, buf := [], full := [] }

/-- One iteration of `for i := 0; i < n; i++` on the byte `tmp[i]`. The buffer received from
`pool.Empty` after a message is complete is empty: the pool starts with empty buffers and
`parse` resets a buffer before it returns it. Waiting for that buffer is not part of the
state. -/
def Framer.step (s : Framer) (b : UInt8) : Framer :=
  if s.hdr < 4 then
    let hdrBuf := s.hdrBuf.set s.hdr b
    let buf := s.buf ++ [b]
    let hdr := s.hdr + 1
    if hdr ≥ 4 then
      { s with hdrBuf := hdrBuf, buf := buf, hdr := hdr,
               msg := (beValue ((hdrBuf.drop 2).take 2) : Int) - 4 }
    else
      { s with hdrBuf := hdrBuf, buf := buf, hdr := hdr }
  else if s.msg > 0 then
    let buf := s.buf ++ [b]
    let msg := s.msg - 1
    if msg = 0 then
      { s with msg := msg, hdr := 0, buf := [], full := s.full ++ [buf] }
    else
      { s with msg := msg, buf := buf }
  else s

/-- One successful `m.conn.Read(tmp)` that returned the bytes `chunk`: the inner loop. -/
def Framer.read (s : Framer) (chunk : List UInt8) : Framer :=
  chunk.foldl Framer.step s

/-- The outer loop of `inbound` over the successful reads, in order. -/
def Framer.reads (s : Framer) (chunks : List (List UInt8)) : Framer :=
  chunks.foldl Framer.read s

/-- A message whose length field holds its own length, at least the 8 bytes of a header. -/
def WellFramed (m : List UInt8) : Prop :=
  8 ≤ m.length ∧ beValue ((m.drop 2).take 2) = m.length

/-! ### The buffer pool -/

/-- A pooled `*bytes.Buffer`: which of the buffers it is, and its contents. -/
structure Buffer where
  id : Nat
  bytes : List UInt8
deriving DecidableEq, Repr

/-- Where the buffers of a `MessageStream` are: on the channel `pool.Empty`, on the channel
`pool.Full` (both oldest first), in the variable `buf` of `inbound`, or in the variable `b` of
`parse`; `parsing` tells whether the `parse` goroutine is still running. -/
structure Pool where
  Empty : List Buffer
  Full : List Buffer
  framer : Option Buffer
  parser : Option Buffer
  parsing : Bool
deriving DecidableEq, Repr

/-- `NewBufferPool`, as `NewMessageStream` has it when it starts its goroutines: 50 buffers
`bytes.NewBuffer(make([]byte, 0, 2048))` on `Empty`, none on `Full`, none held. -/
def NewBufferPool : Pool :=
  { Empty := (List.range 50).map fun i => { id := i, bytes := [] }
    Full := []
    framer := none
    parser := none
    parsing := true }

/-- What `Parse(b.Bytes())` and the send on `m.Inbound` come to in one iteration of `parse`.
`Parse` is not among the sources: it returns a message, an error or neither, or it panics (as
the send on a closed `Inbound` does). -/
inductive Parsed where
  | message
  | error
  | neither
  | panic
deriving DecidableEq, Repr

/-- The operations of `inbound` and `parse` on the pool. -/
inductive PoolStep where
  | framerTake
  | framerWrite (bs : List UInt8)
  | framerPush
  | parserTake
  | parserDone (r : Parsed)
deriving DecidableEq, Repr

/-- One operation on the pool; an operation that cannot run in the state (a receive from a
channel without buffer, a send on a channel holding 50, a task that holds no buffer or has
ended) waits, and the state stays as it is.

* `framerTake`: `buf := <-m.pool.Empty` in `inbound`;
* `framerWrite bs`: `buf.WriteByte` for the bytes `bs`;
* `framerPush`: `m.pool.Full <- buf`;
* `parserTake`: `b := <-m.pool.Full` in `parse`;
* `parserDone r`: the rest of the loop body of `parse`. With a message or an error the buffer
  is reset and sent on `Empty`. With neither, `panic("Contract violation")` runs before
  `b.Reset()`; a panic is recovered by the deferred function, and in both cases `parse` returns
  with the buffer still in `b`. -/
def Pool.step (p : Pool) : PoolStep → Pool
  | .framerTake =>
    match p.framer, p.Empty with
    | none, b :: rest => { p with Empty := rest, framer := some b }
    | _, _ => p
  | .framerWrite bs =>
    match p.framer with
    | some b => { p with framer := some { b with bytes := b.bytes ++ bs } }
    | none => p
  | .framerPush =>
    match p.framer with
    | some b => if p.Full.length < 50 then { p with Full := p.Full ++ [b], framer := none } else p
    | none => p
  | .parserTake =>
    match p.parsing, p.parser, p.Full with
    | true, none, b :: rest => { p with Full := rest, parser := some b }
    | _, _, _ => p
  | .parserDone r =>
    match p.parsing, p.parser with
    | true, some b =>
      match r with
      | .message | .error =>
        if p.Empty.length < 50 then
          { p with Empty := p.Empty ++ [{ b with bytes := [] }], parser := none }
        else p
      | .neither | .panic => { p with parsing := false }
    | _, _ => p

/-- A run of the two tasks: the operations in the order in which they take effect. -/
def Pool.run (p : Pool) (steps : List PoolStep) : Pool :=
  steps.foldl Pool.step p

/-- The buffers of a pool state, place by place. -/
def Pool.buffers (p : Pool) : List Buffer :=
  p.Empty ++ p.Full ++ p.framer.toList ++ p.parser.toList

/-- The identities of the buffers of a pool state, place by place. -/
def Pool.ids (p : Pool) : List Nat :=
  p.buffers.map (fun b => b.id)

end Stream

/-! ## The switch manager of `core/switch.go` -/

namespace Core

open Openflow10

/-- A Go channel, by identity. -/
abbrev Chan := Nat

/-- A TCP connection, by identity. -/
abbrev Conn := Nat

/-- A received message `ofp10.Msg` as far as dispatch looks at it: the XID and the type of the
header that `p.Data.GetHeader()` returns, the message bytes and the datapath id it is tagged
with. -/
structure Msg where
  XID : Nat
  Type_ : Nat
  Data : List UInt8
  DPID : String
deriving DecidableEq, Repr

/-- A goroutine that `distributeReceived` has started and that has not run yet.

* `toWaiter pktChan p`: `go func() { pktChan<- p; delete(s.requests, h.XID) }()`. The variable
  `pktChan` belongs to the `if` statement; the closure is the only one that uses it.
* `toSubscriber p`: `go func() { ch<- p }()`. The variable `ch` belongs to the `for` statement
  and is one variable for all its iterations (the sources carry no `go.mod`; the language
  before Go 1.22), so the closure sends on the channel that `ch` holds when the closure runs,
  not on the channel of the iteration that started it. -/
inductive Routine where
  | toWaiter (pktChan : Chan) (p : Msg)
  | toSubscriber (p : Msg)
deriving DecidableEq, Repr

/-- A call of `distributeReceived` with the goroutines it starts: the waiter table
`s.requests`, the loop variable `ch`, the goroutines started and not yet run (oldest first),
and the sends carried out so far, as (channel, message), oldest first. -/
structure Dispatch where
  requests : Nat → Option Chan
  ch : Option Chan
  waiting : List Routine
  sent : List (Chan × Msg)

/-- The oldest waiting goroutine runs to its end. The goroutine for a waiter sends and, once
its send has been received, deletes the registration; the goroutine for a subscriber sends on
the channel the loop variable holds now. -/
def Dispatch.runOne (d : Dispatch) : Dispatch :=
  match d.waiting with
  | [] => d
  | .toWaiter pktChan p :: rest =>
    { d with
      waiting := rest
      sent := d.sent ++ [(pktChan, p)]
      requests := fun xid => if xid = p.XID then none else d.requests xid }
  | .toSubscriber p :: rest =>
    match d.ch with
    | some c => { d with waiting := rest, sent := d.sent ++ [(c, p)] }
    | none => d

/-- The `k` oldest waiting goroutines run to their ends, one after the other. -/
def Dispatch.run (d : Dispatch) : Nat → Dispatch
  | 0 => d
  | k + 1 => d.runOne.run k

/-- The loop `for _, ch := range messageChans[h.Type]`, from iteration `i` on, over the
channels left: an iteration assigns the channel to `ch` and starts a goroutine; `sched i`
tells how many of the waiting goroutines run before the next iteration (the Go scheduler
decides; a `go` statement does not wait for the goroutine it starts). -/
def Dispatch.loop (p : Msg) (sched : Nat → Nat) : Dispatch → Nat → List Chan → Dispatch
  | d, _, [] => d
  | d, i, c :: rest =>
    Dispatch.loop p sched
      (({ d with ch := some c, waiting := d.waiting ++ [Routine.toSubscriber p] }).run (sched i))
      (i + 1) rest

/-- `Switch.distributeReceived` up to its return, on the waiter table `s.requests` and the
package table `messageChans` (not among the sources: a Go map from message type to subscriber
channels, a missing key giving no channel). `sched` is the schedule: how many waiting
goroutines run after each `go` statement, before the function goes on. -/
def distributeReceived (requests : Nat → Option Chan) (messageChans : Nat → List Chan)
    (sched : Nat → Nat) (p : Msg) : Dispatch :=
  match requests p.XID with
  | some pktChan =>
    ({ requests := requests, ch := none, waiting := [Routine.toWaiter pktChan p], sent := [] }
      : Dispatch).run (sched 0)
  | none =>
    Dispatch.loop p sched { requests := requests, ch := none, waiting := [], sent := [] } 0
      (messageChans p.Type_)

/-- After `distributeReceived` has returned, the goroutines still waiting run to their
ends. -/
def Dispatch.settle (d : Dispatch) : Dispatch :=
  d.run d.waiting.length

/-- The schedule in which no goroutine runs before `distributeReceived` returns: the calling
goroutine is not interrupted during the call. -/
def afterReturn : Nat → Nat := fun _ => 0

/-- The schedule in which every goroutine runs as soon as it is started. -/
def atOnce : Nat → Nat := fun _ => 1

/-- A port description `ofp10.PhyPort`, as far as the manager looks at it. -/
structure PhyPort where
  PortNo : Nat
  Name : String
deriving DecidableEq, Repr

/-- The struct `Switch`; its two Go maps are functions. -/
structure Switch where
  conn : Conn
  DPID : List UInt8
  Ports : Nat → Option PhyPort
  requests : Nat → Option Chan

/-- The features reply `res` as far as `NewOpenFlowSwitch` looks at it. -/
structure FeaturesReply where
  DPID : List UInt8
  Ports : List PhyPort
deriving DecidableEq, Repr

/-- A hexadecimal digit, lower case. -/
def hexDigit (n : Nat) : Char :=
  if n < 10 then Char.ofNat (48 + n) else Char.ofNat (87 + n)

/-- Go `net.HardwareAddr.String`: the bytes in hexadecimal, separated by colons. -/
def HardwareAddr.String (a : List UInt8) : String :=
  ":".intercalate (a.map fun b => String.mk [hexDigit (b.toNat / 16), hexDigit (b.toNat % 16)])

/-- The goroutines a handshake starts for a switch. -/
inductive Task where
  | SendSync (dpid : String)
  | Receive (dpid : String)
deriving DecidableEq, Repr

/-- The package state that `NewOpenFlowSwitch` acts on: the registry `Switches`, the
connections closed so far and the goroutines started so far. -/
structure Manager where
  Switches : String → Option Switch
  closed : List Conn
  tasks : List Task

/-- How the four I/O steps of one handshake went (the error each returned, if any) and the value
of `res` after `res.ReadFrom(conn)`. -/
structure HandshakeOutcome where
  sendHello : Option Err
  readHello : Option Err
  sendFeaturesRequest : Option Err
  readFeaturesReply : Option Err
  res : FeaturesReply

/-- The loop `for _, p := range res.Ports` filling `s.Ports`. -/
def portTable (ps : List PhyPort) : Nat → Option PhyPort :=
  ps.foldl (fun t p => fun no => if no = p.PortNo then some p else t no) (fun _ => none)

/-- `NewOpenFlowSwitch`. -/
def NewOpenFlowSwitch (m : Manager) (conn : Conn) (io : HandshakeOutcome) : Manager :=
  if io.sendHello.isSome then
    { m with closed := m.closed ++ [conn] }
  else if io.readHello.isSome then
    { m with closed := m.closed ++ [conn] }
  else
    let m := if io.sendFeaturesRequest.isSome then { m with closed := m.closed ++ [conn] } else m
    let res := io.res
    let m := if io.readFeaturesReply.isSome then { m with closed := m.closed ++ [conn] } else m
    match m.Switches (HardwareAddr.String res.DPID) with
    | some sw =>
      let sw := { sw with conn := conn }
      { m with
        Switches := fun k => if k = HardwareAddr.String res.DPID then some sw else m.Switches k
        tasks := m.tasks ++ [Task.SendSync (HardwareAddr.String sw.DPID),
                             Task.Receive (HardwareAddr.String sw.DPID)] }
    | none =>
      let s : Switch :=
        { conn := conn, DPID := res.DPID, Ports := portTable res.Ports,
          requests := fun _ => none }
      { m with
        tasks := m.tasks ++ [Task.SendSync (HardwareAddr.String s.DPID),
                             Task.Receive (HardwareAddr.String s.DPID)]
        Switches := fun k => if k = HardwareAddr.String s.DPID then some s else m.Switches k }

/-- `GetSwitch`: the switch, or `nil`, and whether it was found. -/
def GetSwitch (m : Manager) (dpid : String) : Option Switch × Bool :=
  match m.Switches dpid with
  | some sw => (some sw, true)
  | none => (none, false)

/-- `DisconnectSwitch`. For a datapath id that is not in the registry `Switches[dpid]` is a nil
`*Switch`, and taking its field `conn` faults. -/
def DisconnectSwitch (m : Manager) (dpid : String) : Checked Manager :=
  match m.Switches dpid with
  | none => .fault
  | some sw =>
    .ok { m with
          closed := m.closed ++ [sw.conn]
          Switches := fun k => if k = dpid then none else m.Switches k }

/-- `Switch.GetPort`: the port, or `nil`, and the error. -/
def Switch.GetPort (s : Switch) (portNo : Nat) : Option PhyPort × Option Err :=
  match s.Ports portNo with
  | some port => (some port, none)
  | none => (none, some "ERROR::Undefined port number")

/-- `Switch.AllPorts`. -/
def Switch.AllPorts (s : Switch) : Nat → Option PhyPort :=
  s.Ports

/-- A request `ofp10.Packet` as far as the manager looks at it: the XID of the header that
`req.GetHeader()` returns, and the message. -/
structure Packet where
  XID : Nat
  Data : List UInt8
deriving DecidableEq, Repr

/-- What a `Send` leaves: the switch, the requests handed to goroutines that will put them on
`s.outbound`, and the error returned. -/
structure Sent where
  self : Switch
  handoff : List Packet
  err : Option Err

/-- `Switch.Send`: starts a goroutine for `s.outbound <- req` and returns `nil`. -/
def Switch.Send (s : Switch) (req : Packet) : Sent :=
  { self := s, handoff := [req], err := none }

/-- What a `SendAndReceive` leaves: the switch, the requests handed off, the channel returned
(`none` is `nil`) and the error returned. -/
structure Awaited where
  self : Switch
  handoff : List Packet
  p : Option Chan
  err : Option Err

/-- The body of `Switch.SendAndReceive` around its call `s.Send(req)`, which is the argument
`send`; `fresh` is the channel that `make(chan ofp10.Msg)` returns. -/
def Switch.SendAndReceiveWith (send : Switch → Packet → Sent) (s : Switch) (req : Packet)
    (fresh : Chan) : Awaited :=
  let p := fresh
  let s := { s with requests := fun xid => if xid = req.XID then some p else s.requests xid }
  let r := send s req
  if r.err.isSome then
    { self := { r.self with
                requests := fun xid => if xid = req.XID then none else r.self.requests xid }
      handoff := r.handoff, p := none, err := r.err }
  else
    { self := r.self, handoff := r.handoff, p := some p, err := r.err }

/-- `Switch.SendAndReceive`. -/
def Switch.SendAndReceive (s : Switch) (req : Packet) (fresh : Chan) : Awaited :=
  Switch.SendAndReceiveWith Switch.Send s req fresh

/-- A send that fails before the handoff; `Switch.Send` never does. -/
def failingSend (s : Switch) (_req : Packet) : Sent :=
  { self := s, handoff := [], err := some "send failed" }

/-- A handshake whose four steps succeed, with the reply of the datapath `00:16:3e:00:00:01`
carrying the two ports 1 and 2. -/
def handshakeOk : HandshakeOutcome :=
  { sendHello := none, readHello := none, sendFeaturesRequest := none
    readFeaturesReply := none
    res := { DPID := [0x00, 0x16, 0x3e, 0x00, 0x00, 0x01]
             Ports := [{ PortNo := 1, Name := "eth1" }, { PortNo := 2, Name := "eth2" }] } }

/-- The same handshake with a reply whose two ports carry the same port number. -/
def handshakeSamePortNo : HandshakeOutcome :=
  { handshakeOk with
    res := { DPID := [0x00, 0x16, 0x3e, 0x00, 0x00, 0x01]
             Ports := [{ PortNo := 1, Name := "eth1" }, { PortNo := 1, Name := "eth2" }] } }

/-- The manager before any switch has connected. -/
def Manager.empty : Manager :=
  { Switches := fun _ => none, closed := [], tasks := [] }

/-- A handshake in which sending the FeaturesRequest fails and, the connection being closed,
so does reading the reply; `res` is still the value `ofp10.NewFeaturesReply()` gave it, taken
here with an all-zero datapath id and no port. -/
def featuresFail : HandshakeOutcome :=
  { sendHello := none, readHello := none
    sendFeaturesRequest := some "write: broken pipe"
    readFeaturesReply := some "use of closed network connection"
    res := { DPID := List.replicate 8 0, Ports := [] } }

/-- A waiter table with one waiter, channel 100, for transaction 7. -/
def oneWaiter : Nat → Option Chan := fun xid => if xid = 7 then some 100 else none

/-- Two subscribers, channels 200 and 201, for message type 19 (BarrierReply). -/
def twoSubscribers : Nat → List Chan := fun t => if t = 19 then [200, 201] else []

/-- A BarrierReply for the datapath `00:16:3e:00:00:01` with the given transaction id. -/
def barrierReply (xid : Nat) : Msg :=
  { XID := xid, Type_ := 19, Data := [], DPID := "00:16:3e:00:00:01" }

/-- A handshake whose four I/O steps all succeed. -/
def HandshakeOutcome.ok (io : HandshakeOutcome) : Prop :=
  io.sendHello = none ∧ io.readHello = none ∧ io.sendFeaturesRequest = none ∧
    io.readFeaturesReply = none

/-- The switch that the handshake `handshakeOk` on connection 1 registers. -/
def switchOne : Switch :=
  { conn := 1, DPID := handshakeOk.res.DPID, Ports := portTable handshakeOk.res.Ports,
    requests := fun _ => none }

/-- The manager after the handshake `handshakeOk` on connection 1. -/
def managerOne : Manager :=
  NewOpenFlowSwitch Manager.empty 1 handshakeOk

end Core

/-! # Theorems -/

/-! ## The wire codec -/

namespace Openflow10

section CodecTheorems

variable {μ α : Type}

@[simp] theorem Checked.bind_ok {α β : Type} (a : α) (f : α → Checked β) :
    (Checked.ok a >>= f) = f a := rfl

@[simp] theorem Checked.bind_fault {α β : Type} (f : α → Checked β) :
    (Checked.fault >>= f) = Checked.fault := rfl

@[simp] theorem Checked.pure_eq {α : Type} (a : α) : (pure a : Checked α) = Checked.ok a := rfl

@[simp] theorem beBytes_length (w v : Nat) : (beBytes w v).length = w := by
  induction w with
  | zero => rfl
  | succ w ih => simp [beBytes, ih]

theorem MarshalBinary_eq (M : MatchCodec μ) (A : ActionCodec α) (f : FlowMod μ α) :
    FlowMod.MarshalBinary M A f = .ok
      { self := { f with Header := { f.Header with Length := FlowMod.Len A f } }
        data := (marshalActions A f.Actions
          (({ f.Header with Length := FlowMod.Len A f } : Header).MarshalBinary.1
            ++ (M.MarshalBinary f.Match).1 ++ fixedFields f) (M.MarshalBinary f.Match).2).1
        err := (marshalActions A f.Actions
          (({ f.Header with Length := FlowMod.Len A f } : Header).MarshalBinary.1
            ++ (M.MarshalBinary f.Match).1 ++ fixedFields f) (M.MarshalBinary f.Match).2).2 } := by
  simp only [FlowMod.MarshalBinary, PutUint64, PutUint16, PutUint32, makeBytes, Header.MarshalBinary]
  simp [putUint, overwrite, beBytes, fixedFields, List.replicate]

theorem marshalActions_ok (A : ActionCodec α) :
    ∀ (as : List α) (encs : List (List UInt8)) (data : List UInt8) (err : Option Err),
      as.map A.MarshalBinary = encs.map Except.ok →
      marshalActions A as data err = (data ++ encs.flatten, if as.isEmpty then err else none) := by
  intro as
  induction as with
  | nil =>
    intro encs data err h
    cases encs with
    | nil => simp [marshalActions]
    | cons e es => simp at h
  | cons a as ih =>
    intro encs data err h
    cases encs with
    | nil => simp at h
    | cons e es =>
      simp only [List.map_cons, List.cons.injEq] at h
      obtain ⟨h1, h2⟩ := h
      simp only [marshalActions, h1, ih es (data ++ e) none h2]
      cases as <;> simp

theorem foldl_len16 (A : ActionCodec α) :
    ∀ (as : List α) (n : Nat),
      as.foldl (fun n v => (n + A.Len v % 65536) % 65536) n
        = (n + (as.map A.Len).sum) % 65536 ∨ 65536 ≤ n := by
  intro as
  induction as with
  | nil => intro n; simp; omega
  | cons a as ih =>
    intro n
    rcases ih ((n + A.Len a % 65536) % 65536) with h | h
    · simp only [List.foldl_cons, List.map_cons, List.sum_cons, h]
      omega
    · omega

theorem FlowMod.Len_eq (A : ActionCodec α) (f : FlowMod μ α)
    (h : ¬ (f.Command = FC_DELETE ∨ f.Command = FC_DELETE_STRICT)) :
    FlowMod.Len A f = (72 + (f.Actions.map A.Len).sum) % 65536 := by
  rcases foldl_len16 A f.Actions 72 with h1 | h1
  · simp only [FlowMod.Len, if_neg h, h1]
  · omega

theorem drop_take_mid (pre x post : List UInt8) (n w : Nat) (hn : pre.length = n)
    (hw : x.length = w) : ((pre ++ (x ++ post)).drop n).take w = x := by
  subst hn hw
  simp

/-- Claim C3 (delete special case). For a FlowMod whose command is `FC_DELETE` (3) or
`FC_DELETE_STRICT` (4), `Len()` is exactly 72 and `MarshalBinary` returns with the header's
`Length` set to 72, and with the bytes `00 48` at offsets 2..3 of its output when the actions
marshal, whatever the action list holds; for any other command `Len()` is 72 plus the sum of
the `Len()` of the actions, in 16-bit arithmetic. -/
theorem FlowMod_Len_delete_special_case (M : MatchCodec μ) (A : ActionCodec α)
    (f : FlowMod μ α) :
    ((f.Command = FC_DELETE ∨ f.Command = FC_DELETE_STRICT) →
      FlowMod.Len A f = 72 ∧
      ∃ r, FlowMod.MarshalBinary M A f = .ok r ∧ r.self.Header.Length = 72 ∧
        ∀ encs : List (List UInt8), f.Actions.map A.MarshalBinary = encs.map Except.ok →
          (r.data.drop 2).take 2 = [0, 72]) ∧
    (¬ (f.Command = FC_DELETE ∨ f.Command = FC_DELETE_STRICT) →
      FlowMod.Len A f = (72 + (f.Actions.map A.Len).sum) % 65536) := by
  refine ⟨fun h => ?_, fun h => FlowMod.Len_eq A f h⟩
  have hl : FlowMod.Len A f = 72 := by simp only [FlowMod.Len, if_pos h]
  refine ⟨hl, _, MarshalBinary_eq M A f, hl, fun encs ha => ?_⟩
  simp only [marshalActions_ok A f.Actions encs _ _ ha, Header.MarshalBinary, hl]
  simp only [List.append_assoc]
  simp [List.drop_append_eq_append_drop, List.take_append_eq_append_take,
    List.drop_eq_nil_of_le]
  decide

/-- Claim C3, witness: a delete FlowMod holding one output action has length 72, and an add
FlowMod with two output actions has length 72 + 8 + 8. -/
theorem FlowMod_Len_delete_special_case_witness :
    (FlowMod.Len outputCodec deleteWithAction = 72 ∧
      ∃ r, FlowMod.MarshalBinary rawMatchCodec outputCodec deleteWithAction = .ok r ∧
        r.self.Header.Length = 72 ∧
        ∀ encs : List (List UInt8),
          deleteWithAction.Actions.map outputCodec.MarshalBinary = encs.map Except.ok →
          (r.data.drop 2).take 2 = [0, 72]) ∧
    FlowMod.Len outputCodec addTwoActions
      = (72 + (addTwoActions.Actions.map outputCodec.Len).sum) % 65536 :=
  ⟨(FlowMod_Len_delete_special_case rawMatchCodec outputCodec deleteWithAction).1 (Or.inl rfl),
   (FlowMod_Len_delete_special_case rawMatchCodec outputCodec addTwoActions).2 (by decide)⟩


theorem foldl_beBytes (w v acc : Nat) :
    (beBytes w v).foldl (fun acc b => acc * 256 + b.toNat) acc = acc * 256 ^ w + v % 256 ^ w := by
  induction w generalizing acc with
  | zero => simp [beBytes, Nat.mod_one]
  | succ w ih =>
    have h8 : (UInt8.ofNat (v / 256 ^ w)).toNat = v / 256 ^ w % 256 := rfl
    simp only [beBytes, List.foldl_cons, ih, h8, Nat.mod_pow_succ]
    ring

theorem beValue_beBytes (w v : Nat) : beValue (beBytes w v) = v % 256 ^ w := by
  simp [beValue, foldl_beBytes]

/-- Claim C4 (FlowMod wire layout). When the match encodes to 40 bytes and the actions marshal
to the byte strings `encs`, `MarshalBinary` returns the 8 header bytes (with the length set
to `Len()`), the 40 match bytes, then Cookie (8 bytes, offset 48), Command (2, offset 56),
IdleTimeout (58), HardTimeout (60), Priority (62), BufferId (4 bytes, offset 64), OutPort (68)
and Flags (70), then from offset 72 the encodings of the actions in list order; each integer is
written most significant byte first, so that it reads back as its value. -/
theorem FlowMod_MarshalBinary_wire_layout (M : MatchCodec μ) (A : ActionCodec α)
    (f : FlowMod μ α) (encs : List (List UInt8))
    (hm : (M.MarshalBinary f.Match).1.length = 40)
    (ha : f.Actions.map A.MarshalBinary = encs.map Except.ok) :
    ∃ r hdr, FlowMod.MarshalBinary M A f = .ok r ∧
      hdr = (Header.MarshalBinary { f.Header with Length := FlowMod.Len A f }).1 ∧
      hdr.length = 8 ∧
      r.data = hdr ++ (M.MarshalBinary f.Match).1 ++ beBytes 8 f.Cookie ++ beBytes 2 f.Command
        ++ beBytes 2 f.IdleTimeout ++ beBytes 2 f.HardTimeout ++ beBytes 2 f.Priority
        ++ beBytes 4 f.BufferId ++ beBytes 2 f.OutPort ++ beBytes 2 f.Flags ++ encs.flatten ∧
      (r.data.drop 48).take 8 = beBytes 8 f.Cookie ∧
      (r.data.drop 56).take 2 = beBytes 2 f.Command ∧
      (r.data.drop 58).take 2 = beBytes 2 f.IdleTimeout ∧
      (r.data.drop 60).take 2 = beBytes 2 f.HardTimeout ∧
      (r.data.drop 62).take 2 = beBytes 2 f.Priority ∧
      (r.data.drop 64).take 4 = beBytes 4 f.BufferId ∧
      (r.data.drop 68).take 2 = beBytes 2 f.OutPort ∧
      (r.data.drop 70).take 2 = beBytes 2 f.Flags ∧
      r.data.drop 72 = encs.flatten ∧
      (∀ w v, beValue (beBytes w v) = v % 256 ^ w) := by
  have hh : (Header.MarshalBinary { f.Header with Length := FlowMod.Len A f }).1.length = 8 := by
    simp [Header.MarshalBinary]
  refine ⟨_, _, MarshalBinary_eq M A f, rfl, hh, ?_⟩
  simp only [marshalActions_ok A f.Actions encs _ _ ha, fixedFields]
  generalize (Header.MarshalBinary { f.Header with Length := FlowMod.Len A f }).1 = hdr at hh ⊢
  generalize (M.MarshalBinary f.Match).1 = mb at hm ⊢
  refine ⟨by simp only [List.append_assoc], ?_, ?_, ?_, ?_, ?_, ?_, ?_, ?_, ?_, beValue_beBytes⟩
  all_goals
    simp [List.drop_append_eq_append_drop, List.take_append_eq_append_take,
      List.drop_eq_nil_of_le, hh, hm]


theorem getUint_of_take (w n v : Nat) (data : List UInt8) (hl : n + w ≤ data.length)
    (h : (data.drop n).take w = beBytes w v) : getUint w data n = .ok (v % 256 ^ w) := by
  have h1 : n ≤ data.length := by omega
  have h2 : w ≤ data.length - n := by omega
  simp [getUint, sliceFrom, h1, h2, h, beValue_beBytes]

theorem Header.UnmarshalBinary_MarshalBinary (h h0 : Header) (rest : List UInt8) :
    Header.UnmarshalBinary h0 ((Header.MarshalBinary h).1 ++ rest)
      = ({ Version := h.Version % 256, Type_ := h.Type_ % 256, Length := h.Length % 65536,
           Xid := h.Xid % 4294967296 }, none) := by
  have e1 : ((Header.MarshalBinary h).1 ++ rest).take 1 = beBytes 1 h.Version := by
    simp [Header.MarshalBinary, List.take_append_eq_append_take]
  have e2 : (((Header.MarshalBinary h).1 ++ rest).drop 1).take 1 = beBytes 1 h.Type_ := by
    simp [Header.MarshalBinary, List.take_append_eq_append_take,
      List.drop_append_eq_append_drop, List.drop_eq_nil_of_le]
  have e3 : (((Header.MarshalBinary h).1 ++ rest).drop 2).take 2 = beBytes 2 h.Length := by
    simp [Header.MarshalBinary, List.take_append_eq_append_take,
      List.drop_append_eq_append_drop, List.drop_eq_nil_of_le]
  have e4 : (((Header.MarshalBinary h).1 ++ rest).drop 4).take 4 = beBytes 4 h.Xid := by
    simp [Header.MarshalBinary, List.take_append_eq_append_take,
      List.drop_append_eq_append_drop, List.drop_eq_nil_of_le]
  have hl : ¬ ((Header.MarshalBinary h).1 ++ rest).length < 8 := by
    simp [Header.MarshalBinary]
    omega
  simp only [Header.UnmarshalBinary, if_neg hl, e1, e2, e3, e4, beValue_beBytes]
  norm_num


theorem decodeActions_encoded (A : ActionCodec α) (data : List UInt8) :
    ∀ (as : List α) (pre : List UInt8) (f : FlowMod μ α),
      (∀ a ∈ as, A.RoundTrips a) → (∀ a ∈ as, A.Len a < 65536) →
      data = pre ++ (as.map (actionBytes A)).flatten →
      f.Header.Length = pre.length + (as.map A.Len).sum →
      ∃ bs, (∀ fuel, as.length < fuel → FlowMod.decodeActions A data fuel f pre.length
          = some (.ret { f with Actions := f.Actions ++ bs } none)) ∧
        bs.length = as.length ∧ actionsEqual A as bs = true := by
  intro as
  induction as with
  | nil =>
    intro pre f _ _ _ hlen
    refine ⟨[], fun fuel hfuel => ?_, rfl, by simp [actionsEqual]⟩
    obtain ⟨k, rfl⟩ : ∃ k, fuel = k + 1 := ⟨fuel - 1, by simp at hfuel; omega⟩
    have : ¬ pre.length < f.Header.Length := by simp at hlen; omega
    simp [FlowMod.decodeActions, this]
  | cons a as ih =>
    intro pre f hrt hlt hdata hlen
    obtain ⟨_, hel, hpos, hdec⟩ := hrt a (List.mem_cons_self _ _)
    obtain ⟨b, hb, hab, hbl⟩ := hdec (as.map (actionBytes A)).flatten
    have hal := hlt a (List.mem_cons_self _ _)
    simp only [List.map_cons, List.sum_cons, List.flatten_cons] at hdata hlen
    have hn : pre.length < f.Header.Length := by omega
    have hs : sliceFrom data pre.length
        = .ok (actionBytes A a ++ (as.map (actionBytes A)).flatten) := by
      simp [sliceFrom, hdata]
    obtain ⟨bs, h1, h2, h3⟩ := ih (pre ++ actionBytes A a) { f with Actions := f.Actions ++ [b] }
      (fun x hx => hrt x (List.mem_cons_of_mem _ hx))
      (fun x hx => hlt x (List.mem_cons_of_mem _ hx))
      (by simp [hdata]) (by simp [hlen, hel]; omega)
    refine ⟨b :: bs, fun fuel hfuel => ?_, by simp [h2], by simp [actionsEqual, hab, h3]⟩
    obtain ⟨k, rfl⟩ : ∃ k, fuel = k + 1 := ⟨fuel - 1, by simp at hfuel; omega⟩
    have hmod : A.Len b % 65536 = (actionBytes A a).length := by rw [hbl, hel]; omega
    have h1k := h1 k (by simp at hfuel; omega)
    simp only [FlowMod.decodeActions, if_pos hn, hs, hb, hmod]
    simp only [List.length_append] at h1k
    simp [h1k]

theorem decodeFixed_encoded (M : MatchCodec μ) (f0 : FlowMod μ α) (h : Header)
    (mb tail : List UInt8) (c cmd it ht pr bid op fl : Nat) (hm : mb.length = 40) :
    FlowMod.decodeFixed M f0 ((Header.MarshalBinary h).1 ++ (mb ++ (beBytes 8 c ++ (beBytes 2 cmd
        ++ (beBytes 2 it ++ (beBytes 2 ht ++ (beBytes 2 pr ++ (beBytes 4 bid ++ (beBytes 2 op
        ++ (beBytes 2 fl ++ tail))))))))))
      = .ok ({ Header := { Version := h.Version % 256, Type_ := h.Type_ % 256,
                           Length := h.Length % 65536, Xid := h.Xid % 4294967296 }
               Match := (M.UnmarshalBinary f0.Match (mb ++ (beBytes 8 c ++ (beBytes 2 cmd
                 ++ (beBytes 2 it ++ (beBytes 2 ht ++ (beBytes 2 pr ++ (beBytes 4 bid
                 ++ (beBytes 2 op ++ (beBytes 2 fl ++ tail)))))))))).1
               Cookie := c % 256 ^ 8, Command := cmd % 256 ^ 2, IdleTimeout := it % 256 ^ 2,
               HardTimeout := ht % 256 ^ 2, Priority := pr % 256 ^ 2, BufferId := bid % 256 ^ 4,
               OutPort := op % 256 ^ 2, Flags := fl % 256 ^ 2, Actions := f0.Actions }, 72) := by
  have hh : (Header.MarshalBinary h).1.length = 8 := by simp [Header.MarshalBinary]
  have hH := Header.UnmarshalBinary_MarshalBinary h f0.Header (mb ++ (beBytes 8 c ++ (beBytes 2 cmd
        ++ (beBytes 2 it ++ (beBytes 2 ht ++ (beBytes 2 pr ++ (beBytes 4 bid ++ (beBytes 2 op
        ++ (beBytes 2 fl ++ tail)))))))))
  generalize (Header.MarshalBinary h).1 = hdr at hh hH ⊢
  generalize hd : hdr ++ (mb ++ (beBytes 8 c ++ (beBytes 2 cmd
        ++ (beBytes 2 it ++ (beBytes 2 ht ++ (beBytes 2 pr ++ (beBytes 4 bid ++ (beBytes 2 op
        ++ (beBytes 2 fl ++ tail))))))))) = data at hH ⊢
  have s0 : sliceFrom data 0 = .ok data := by simp [sliceFrom]
  have s8 : sliceFrom data 8 = .ok (mb ++ (beBytes 8 c ++ (beBytes 2 cmd
        ++ (beBytes 2 it ++ (beBytes 2 ht ++ (beBytes 2 pr ++ (beBytes 4 bid ++ (beBytes 2 op
        ++ (beBytes 2 fl ++ tail))))))))) := by
    subst hd
    simp [sliceFrom, hh, List.drop_append_eq_append_drop, List.drop_eq_nil_of_le]
  have u48 : Uint64 data 48 = .ok (c % 256 ^ 8) := by
    subst hd
    exact getUint_of_take 8 48 c _ (by simp [hh, hm]; omega)
      (by simp [hh, hm, List.drop_append_eq_append_drop, List.take_append_eq_append_take,
        List.drop_eq_nil_of_le])
  have u56 : Uint16 data 56 = .ok (cmd % 256 ^ 2) := by
    subst hd
    exact getUint_of_take 2 56 cmd _ (by simp [hh, hm]; omega)
      (by simp [hh, hm, List.drop_append_eq_append_drop, List.take_append_eq_append_take,
        List.drop_eq_nil_of_le])
  have u58 : Uint16 data 58 = .ok (it % 256 ^ 2) := by
    subst hd
    exact getUint_of_take 2 58 it _ (by simp [hh, hm]; omega)
      (by simp [hh, hm, List.drop_append_eq_append_drop, List.take_append_eq_append_take,
        List.drop_eq_nil_of_le])
  have u60 : Uint16 data 60 = .ok (ht % 256 ^ 2) := by
    subst hd
    exact getUint_of_take 2 60 ht _ (by simp [hh, hm]; omega)
      (by simp [hh, hm, List.drop_append_eq_append_drop, List.take_append_eq_append_take,
        List.drop_eq_nil_of_le])
  have u62 : Uint16 data 62 = .ok (pr % 256 ^ 2) := by
    subst hd
    exact getUint_of_take 2 62 pr _ (by simp [hh, hm]; omega)
      (by simp [hh, hm, List.drop_append_eq_append_drop, List.take_append_eq_append_take,
        List.drop_eq_nil_of_le])
  have u64 : Uint32 data 64 = .ok (bid % 256 ^ 4) := by
    subst hd
    exact getUint_of_take 4 64 bid _ (by simp [hh, hm]; omega)
      (by simp [hh, hm, List.drop_append_eq_append_drop, List.take_append_eq_append_take,
        List.drop_eq_nil_of_le])
  have u68 : Uint16 data 68 = .ok (op % 256 ^ 2) := by
    subst hd
    exact getUint_of_take 2 68 op _ (by simp [hh, hm]; omega)
      (by simp [hh, hm, List.drop_append_eq_append_drop, List.take_append_eq_append_take,
        List.drop_eq_nil_of_le])
  have u70 : Uint16 data 70 = .ok (fl % 256 ^ 2) := by
    subst hd
    exact getUint_of_take 2 70 fl _ (by simp [hh, hm]; omega)
      (by simp [hh, hm, List.drop_append_eq_append_drop, List.take_append_eq_append_take,
        List.drop_eq_nil_of_le])
  simp [FlowMod.decodeFixed, Header.Len, MatchCodec.Len, s0, s8, u48, u56, u58, u60, u62, u64,
    u68, u70, hH]


theorem FlowMod.Len_lt (A : ActionCodec α) (f : FlowMod μ α) : FlowMod.Len A f < 65536 := by
  unfold FlowMod.Len
  split
  · omega
  · rcases foldl_len16 A f.Actions 72 with h | h
    · rw [h]; omega
    · omega

theorem map_marshal_of_roundTrips (A : ActionCodec α) (as : List α)
    (h : ∀ a ∈ as, A.RoundTrips a) :
    as.map A.MarshalBinary = (as.map (actionBytes A)).map Except.ok := by
  induction as with
  | nil => rfl
  | cons a as ih =>
    simp only [List.map_cons, List.cons.injEq]
    exact ⟨(h a (List.mem_cons_self _ _)).1, ih (fun x hx => h x (List.mem_cons_of_mem _ hx))⟩

theorem sum_len_le (A : ActionCodec α) (as : List α) (a : α) (h : a ∈ as) :
    A.Len a ≤ (as.map A.Len).sum :=
  List.single_le_sum (fun _ _ => Nat.zero_le _) _ (List.mem_map_of_mem _ h)

/-- Claim C1 as amended (FlowMod round trip). Let `m` have fields within the ranges of their Go
types, a match that encodes to 40 bytes and decodes back, from a new match, to an equal match,
actions that each encode to exactly their own positive `Len()` bytes and decode back to an equal
action of that length, an encoded length `72 + Σ Len` that fits 16 bits, and either a command
that is not a delete or no action. Then `MarshalBinary` succeeds, and decoding its bytes into
`NewFlowMod()` returns, with enough fuel (more than the number of actions), without error a
FlowMod `f` for which `m.Equal(f)` holds, `m` being the receiver as `MarshalBinary` left it. -/
theorem FlowMod_roundtrip (M : MatchCodec μ) (A : ActionCodec α) (m : FlowMod μ α)
    (newHeader : Header) (newMatch : μ) (P_NONE : Nat)
    (hwt : m.WellTyped)
    (hml : (M.MarshalBinary m.Match).1.length = 40)
    (hmr : ∀ rest, M.Equal m.Match
      (M.UnmarshalBinary newMatch ((M.MarshalBinary m.Match).1 ++ rest)).1 = true)
    (hact : ∀ a ∈ m.Actions, A.RoundTrips a)
    (hcmd : ¬ (m.Command = FC_DELETE ∨ m.Command = FC_DELETE_STRICT) ∨ m.Actions = [])
    (hfit : 72 + (m.Actions.map A.Len).sum < 65536) :
    ∃ r f, FlowMod.MarshalBinary M A m = .ok r ∧
      (∀ fuel, m.Actions.length < fuel →
        FlowMod.UnmarshalBinary M A fuel (NewFlowMod newHeader newMatch P_NONE) r.data
          = some (.ret f none)) ∧
      FlowMod.Equal M A r.self f = true := by
  obtain ⟨h1, h2, h3, h4, h5, h6, h7, h8, h9, h10, h11⟩ := hwt
  have hlen : FlowMod.Len A m = 72 + (m.Actions.map A.Len).sum := by
    rcases hcmd with hc | hc
    · rw [FlowMod.Len_eq A m hc]; omega
    · simp [FlowMod.Len, hc]
  have henc := map_marshal_of_roundTrips A m.Actions hact
  have hdata := marshalActions_ok A m.Actions _
    (({ m.Header with Length := FlowMod.Len A m } : Header).MarshalBinary.1
      ++ (M.MarshalBinary m.Match).1 ++ fixedFields m) (M.MarshalBinary m.Match).2 henc
  obtain ⟨f1, hfix, e1, e2, e3, e4, e5, e6, e7, e8, e9, e10, e11⟩ :
      ∃ f1 : FlowMod μ α, FlowMod.decodeFixed M (NewFlowMod newHeader newMatch P_NONE)
        (({ m.Header with Length := FlowMod.Len A m } : Header).MarshalBinary.1
          ++ (M.MarshalBinary m.Match).1 ++ fixedFields m
          ++ (m.Actions.map (actionBytes A)).flatten) = .ok (f1, 72) ∧
        f1.Header = { m.Header with Length := FlowMod.Len A m } ∧
        M.Equal m.Match f1.Match = true ∧ f1.Cookie = m.Cookie ∧ f1.Command = m.Command ∧
        f1.IdleTimeout = m.IdleTimeout ∧ f1.HardTimeout = m.HardTimeout ∧
        f1.Priority = m.Priority ∧ f1.BufferId = m.BufferId ∧ f1.OutPort = m.OutPort ∧
        f1.Flags = m.Flags ∧ f1.Actions = [] := by
    have hL := FlowMod.Len_lt A m
    simp only [fixedFields, List.append_assoc]
    refine ⟨_, decodeFixed_encoded M (NewFlowMod newHeader newMatch P_NONE : FlowMod μ α)
        { m.Header with Length := FlowMod.Len A m } (M.MarshalBinary m.Match).1
        ((m.Actions.map (actionBytes A)).flatten) m.Cookie m.Command m.IdleTimeout m.HardTimeout
        m.Priority m.BufferId m.OutPort m.Flags hml, ?_⟩
    simp [Nat.mod_eq_of_lt, h1, h2, h3, h4, h5, h6, h7, h8, h9, h10, h11, hL, NewFlowMod, hmr]
    omega
  obtain ⟨bs, hb1, hb2, hb3⟩ := decodeActions_encoded A
    (({ m.Header with Length := FlowMod.Len A m } : Header).MarshalBinary.1
      ++ (M.MarshalBinary m.Match).1 ++ fixedFields m ++ (m.Actions.map (actionBytes A)).flatten)
    m.Actions
    (({ m.Header with Length := FlowMod.Len A m } : Header).MarshalBinary.1
      ++ (M.MarshalBinary m.Match).1 ++ fixedFields m) f1 hact
    (fun a ha => by have := sum_len_le A m.Actions a ha; omega) rfl
    (by simp [e1, hml, Header.MarshalBinary, fixedFields, hlen])
  have e72 : (({ m.Header with Length := FlowMod.Len A m } : Header).MarshalBinary.1
      ++ (M.MarshalBinary m.Match).1 ++ fixedFields m).length = 72 := by
    simp [hml, Header.MarshalBinary, fixedFields]
  rw [e72] at hb1
  refine ⟨_, { f1 with Actions := f1.Actions ++ bs }, MarshalBinary_eq M A m,
    fun fuel hfuel => ?_, ?_⟩
  · simp only [hdata, FlowMod.UnmarshalBinary, hfix]
    exact hb1 fuel hfuel
  · simp [FlowMod.Equal, Header.Equal, e1, e2, e3, e4, e5, e6, e7, e8, e9, e10, e11, hb2, hb3]


theorem outputCodec_roundTrips (a : ActionOutput) (hp : a.Port < 65536) (hm : a.MaxLen < 65536) :
    outputCodec.RoundTrips a := by
  have e : actionBytes outputCodec a = a.encode := rfl
  refine ⟨rfl, rfl, Nat.succ_pos _, fun rest => ⟨a, ?_, by simp [outputCodec], rfl⟩⟩
  rw [e]
  have t0 : (a.encode ++ rest).take 2 = beBytes 2 0 := by
    simp [ActionOutput.encode, List.take_append_eq_append_take]
  have t2 : ((a.encode ++ rest).drop 2).take 2 = beBytes 2 8 := by
    simp [ActionOutput.encode, List.take_append_eq_append_take, List.drop_append_eq_append_drop,
      List.drop_eq_nil_of_le]
  have t4 : ((a.encode ++ rest).drop 4).take 2 = beBytes 2 a.Port := by
    simp [ActionOutput.encode, List.take_append_eq_append_take, List.drop_append_eq_append_drop,
      List.drop_eq_nil_of_le]
  have t6 : ((a.encode ++ rest).drop 6).take 2 = beBytes 2 a.MaxLen := by
    simp [ActionOutput.encode, List.take_append_eq_append_take, List.drop_append_eq_append_drop,
      List.drop_eq_nil_of_le]
  have hl : ¬ (a.encode ++ rest).length < 8 := by
    simp [ActionOutput.encode]; omega
  show ActionOutput.decode (a.encode ++ rest) = .ok a
  simp only [ActionOutput.decode, if_neg hl, t0, t2, t4, t6, beValue_beBytes]
  simp [Nat.mod_eq_of_lt, hp, hm]

theorem rawMatchCodec_roundtrip (m m0 rest : List UInt8) (h : m.length = 40) :
    rawMatchCodec.Equal m (rawMatchCodec.UnmarshalBinary m0
      ((rawMatchCodec.MarshalBinary m).1 ++ rest)).1 = true := by
  have e1 : m.take 40 = m := List.take_of_length_le (by omega)
  have e2 : (m ++ rest).take 40 = m := by
    rw [List.take_append_eq_append_take, e1, h]; simp
  have hl : ¬ (m ++ rest).length < 40 := by simp [h]
  simp [rawMatchCodec, h, e1, e2, hl]

/-- Claim C1 as amended, witness: an add FlowMod with two output actions round-trips. -/
theorem FlowMod_roundtrip_witness :
    ∃ r f, FlowMod.MarshalBinary rawMatchCodec outputCodec addTwoActions = .ok r ∧
      (∀ fuel, addTwoActions.Actions.length < fuel →
        FlowMod.UnmarshalBinary rawMatchCodec outputCodec fuel
          (NewFlowMod { Version := 1, Type_ := 14, Length := 8, Xid := 0 } [] 0xffff) r.data
          = some (.ret f none)) ∧
      FlowMod.Equal rawMatchCodec outputCodec r.self f = true :=
  FlowMod_roundtrip rawMatchCodec outputCodec addTwoActions
    { Version := 1, Type_ := 14, Length := 8, Xid := 0 } [] 0xffff
    (by unfold FlowMod.WellTyped; decide) (by decide)
    (fun rest => rawMatchCodec_roundtrip _ _ rest (by decide))
    (fun a ha => outputCodec_roundTrips a
      (by simp [addTwoActions] at ha; rcases ha with rfl | rfl <;> decide)
      (by simp [addTwoActions] at ha; rcases ha with rfl | rfl <;> decide))
    (Or.inl (by decide)) (by decide)

/-- Claim C1, counterexample: the delete FlowMod that holds one output action has fields in
range and an action that round-trips, yet no decoding of its bytes, with any fuel, returns a
FlowMod equal to it: 80 bytes go out under a declared length of 72, and the decoder stops at 72
with no action. -/
theorem FlowMod_roundtrip_fails_on_delete :
    deleteWithAction.WellTyped ∧ (∀ a ∈ deleteWithAction.Actions, outputCodec.RoundTrips a) ∧
    ¬ ∃ fuel r f, FlowMod.MarshalBinary rawMatchCodec outputCodec deleteWithAction = .ok r ∧
      FlowMod.UnmarshalBinary rawMatchCodec outputCodec fuel
        (NewFlowMod { Version := 1, Type_ := 14, Length := 8, Xid := 0 } [] 0xffff) r.data
        = some (.ret f none) ∧
      FlowMod.Equal rawMatchCodec outputCodec r.self f = true := by
  refine ⟨by unfold FlowMod.WellTyped; decide, fun a ha => outputCodec_roundTrips a
      (by simp [deleteWithAction] at ha; subst ha; decide)
      (by simp [deleteWithAction] at ha; subst ha; decide), ?_⟩
  rintro ⟨fuel, r, f, hm, hu, he⟩
  rw [MarshalBinary_eq] at hm
  cases hm
  cases fuel with
  | zero =>
    simp only [FlowMod.UnmarshalBinary] at hu
    split at hu <;> simp [FlowMod.decodeActions] at hu
  | succ k =>
    have hd : FlowMod.decodeFixed rawMatchCodec
        (NewFlowMod { Version := 1, Type_ := 14, Length := 8, Xid := 0 } [] 0xffff
          : FlowMod (List UInt8) ActionOutput)
        (marshalActions outputCodec deleteWithAction.Actions
          (({ deleteWithAction.Header with Length := FlowMod.Len outputCodec deleteWithAction }
            : Header).MarshalBinary.1 ++ (rawMatchCodec.MarshalBinary deleteWithAction.Match).1
            ++ fixedFields deleteWithAction)
          (rawMatchCodec.MarshalBinary deleteWithAction.Match).2).1
        = .ok ({ deleteWithAction with
                  Header := { Version := 1, Type_ := 14, Length := 72, Xid := 7 }
                  Actions := [] }, 72) := by decide
    simp only [FlowMod.UnmarshalBinary, hd, FlowMod.decodeActions] at hu
    simp at hu
    subst hu
    revert he
    decide


theorem Checked.bind_fault_of_forall {α β : Type} (x : Checked α) (f : α → Checked β)
    (h : ∀ a, f a = .fault) : (x >>= f) = .fault := by
  cases x with
  | fault => rfl
  | ok a => exact h a

theorem Checked.bind_fault_of_eq {α β : Type} (x : Checked α) (f : α → Checked β)
    (h : x = .fault) : (x >>= f) = .fault := by
  subst h; rfl

theorem getUint_of_le (w n : Nat) (data : List UInt8) (h : n + w ≤ data.length) :
    getUint w data n = .ok (beValue ((data.drop n).take w)) := by
  have h1 : n ≤ data.length := by omega
  have h2 : w ≤ data.length - n := by omega
  simp [getUint, sliceFrom, h1, h2]

theorem getUint_of_lt (w n : Nat) (data : List UInt8) (h : data.length < n + w) :
    getUint w data n = .fault := by
  unfold getUint sliceFrom
  split_ifs with h1
  · have h2 : ¬ w ≤ (data.drop n).length := by simp; omega
    simp only [if_neg h2]
  · rfl

theorem sliceFrom_of_le (n : Nat) (data : List UInt8) (h : n ≤ data.length) :
    sliceFrom data n = .ok (data.drop n) := by
  simp [sliceFrom, h]

theorem index_of_lt (n : Nat) (data : List UInt8) (h : n < data.length) :
    index data n = .ok (data.get ⟨n, h⟩) := by
  simp [index, List.getElem?_eq_getElem h]

theorem decodeFixed_fault (M : MatchCodec μ) (f : FlowMod μ α) (data : List UInt8)
    (h : data.length < 72) : FlowMod.decodeFixed M f data = .fault := by
  have hlast : Uint16 data 70 = .fault := getUint_of_lt 2 70 data (by omega)
  simp only [FlowMod.decodeFixed, Header.Len, MatchCodec.Len]
  repeat first
    | exact Checked.bind_fault_of_eq _ _ hlast
    | (apply Checked.bind_fault_of_forall; intro _)

theorem decodeFixed_ok (M : MatchCodec μ) (f : FlowMod μ α) (data : List UInt8)
    (h : 72 ≤ data.length) :
    ∃ f1, FlowMod.decodeFixed M f data = .ok (f1, 72) ∧
      f1.Header.Length = beValue ((data.drop 2).take 2) := by
  have h8 : ¬ data.length < 8 := by omega
  simp (disch := omega) [FlowMod.decodeFixed, Header.Len, MatchCodec.Len, Uint64, Uint32,
    Uint16, getUint_of_le, sliceFrom_of_le, Header.UnmarshalBinary, h8]


theorem decodeActions_no_fault (A : ActionCodec α) (data : List UInt8) :
    ∀ (fuel : Nat) (f : FlowMod μ α) (n : Nat), f.Header.Length ≤ data.length →
      FlowMod.decodeActions A data fuel f n ≠ some .fault := by
  intro fuel
  induction fuel with
  | zero => intro f n _; simp [FlowMod.decodeActions]
  | succ k ih =>
    intro f n hL
    by_cases hn : n < f.Header.Length
    · cases hd : A.DecodeAction (data.drop n) with
      | error e =>
        simp [FlowMod.decodeActions, if_pos hn, sliceFrom_of_le n data (by omega), hd]
      | ok a =>
        simp only [FlowMod.decodeActions, if_pos hn, sliceFrom_of_le n data (by omega), hd]
        exact ih _ _ hL
    · simp [FlowMod.decodeActions, if_neg hn]

theorem decodeActions_returns (A : ActionCodec α) (data : List UInt8)
    (hpos : ∀ d a, A.DecodeAction d = .ok a → 0 < A.Len a % 65536) :
    ∀ (fuel : Nat) (f : FlowMod μ α) (n : Nat), f.Header.Length ≤ data.length →
      f.Header.Length - n < fuel →
      ∃ r e, FlowMod.decodeActions A data fuel f n = some (.ret r e) := by
  intro fuel
  induction fuel with
  | zero =>
    intro f n _ h
    exact absurd h (by omega)
  | succ k ih =>
    intro f n hL hfuel
    by_cases hn : n < f.Header.Length
    · cases hd : A.DecodeAction (data.drop n) with
      | error e =>
        exact ⟨f, some e, by
          simp only [FlowMod.decodeActions, if_pos hn, sliceFrom_of_le n data (by omega), hd]⟩
      | ok a =>
        have := hpos _ _ hd
        simp only [FlowMod.decodeActions, if_pos hn, sliceFrom_of_le n data (by omega), hd]
        exact ih _ _ hL (by simp only; omega)
    · exact ⟨f, none, by simp only [FlowMod.decodeActions, if_neg hn]⟩

theorem FlowRemoved.decode_fault (M : MatchCodec μ) (g : FlowRemoved μ) (data : List UInt8)
    (h : data.length < 85 + g.pad.length + g.pad2.length) :
    FlowRemoved.decode M g data = .fault := by
  have hlast : Uint64 data (0 + 8 + 40 + 8 + 2 + 1 + g.pad.length + 4 + 4 + 2 + g.pad2.length + 8)
      = .fault := getUint_of_lt 8 _ data (by omega)
  simp only [FlowRemoved.decode, Header.Len, MatchCodec.Len]
  repeat first
    | exact Checked.bind_fault_of_eq _ _ hlast
    | (apply Checked.bind_fault_of_forall; intro _)

theorem FlowRemoved.decode_ok (M : MatchCodec μ) (g : FlowRemoved μ) (data : List UInt8)
    (h : 85 + g.pad.length + g.pad2.length ≤ data.length) :
    ∃ r, FlowRemoved.decode M g data
      = .ok (r, (M.UnmarshalBinary g.Match (data.drop 8)).2) := by
  simp (disch := omega) [FlowRemoved.decode, Header.Len, MatchCodec.Len, Uint64, Uint32,
    Uint16, getUint_of_le, sliceFrom_of_le, index_of_lt]

/-- Claim C5 as amended (decoder bounds). On an input shorter than 72 bytes on which the Header
and the Match sub-decoders report no error, `FlowMod.UnmarshalBinary` faults; on an input of at
least 72 bytes whose header declares a length of at most `len(data)` it never faults, and it
returns when every decoded action has a positive length. On an input shorter than
`85 + len(pad) + len(pad2)` bytes (88 for `NewFlowRemoved()`) on which the Header and the Match
sub-decoders report no error, `FlowRemoved.UnmarshalBinary` faults; on every input of at least
that length it returns. The Header, Match and Action sub-decoders are taken not to fault. -/
theorem UnmarshalBinary_faults_exactly_on_short_input (M : MatchCodec μ) (A : ActionCodec α)
    (f : FlowMod μ α) (g : FlowRemoved μ) (data : List UInt8) :
    ((Header.UnmarshalBinary f.Header data).2 = none →
      (M.UnmarshalBinary f.Match (data.drop 8)).2 = none → data.length < 72 →
      ∀ fuel, FlowMod.UnmarshalBinary M A fuel f data = some .fault) ∧
    (72 ≤ data.length → beValue ((data.drop 2).take 2) ≤ data.length →
      (∀ fuel, FlowMod.UnmarshalBinary M A fuel f data ≠ some .fault) ∧
      ((∀ d a, A.DecodeAction d = .ok a → 0 < A.Len a % 65536) →
        ∃ fuel r e, FlowMod.UnmarshalBinary M A fuel f data = some (.ret r e))) ∧
    ((Header.UnmarshalBinary g.Header data).2 = none →
      (M.UnmarshalBinary g.Match (data.drop 8)).2 = none →
      data.length < 85 + g.pad.length + g.pad2.length →
      FlowRemoved.UnmarshalBinary M g data = .fault) ∧
    (85 + g.pad.length + g.pad2.length ≤ data.length →
      ∃ r e, FlowRemoved.UnmarshalBinary M g data = .ret r e) := by
  refine ⟨fun _ _ h fuel => ?_, fun h hL => ?_, fun _ _ h => ?_, fun h => ?_⟩
  · simp [FlowMod.UnmarshalBinary, decodeFixed_fault M f data h]
  · obtain ⟨f1, h1, h2⟩ := decodeFixed_ok M f data h
    refine ⟨fun fuel => ?_, fun hpos => ?_⟩
    · simp only [FlowMod.UnmarshalBinary, h1]
      exact decodeActions_no_fault A data fuel f1 72 (by omega)
    · obtain ⟨r, e, hr⟩ := decodeActions_returns A data hpos (f1.Header.Length + 1) f1 72
        (by omega) (by omega)
      exact ⟨f1.Header.Length + 1, r, e, by simp only [FlowMod.UnmarshalBinary, h1, hr]⟩
  · simp [FlowRemoved.UnmarshalBinary, FlowRemoved.decode_fault M g data h]
  · obtain ⟨r, hr⟩ := FlowRemoved.decode_ok M g data h
    exact ⟨r, (M.UnmarshalBinary g.Match (data.drop 8)).2, by
      simp only [FlowRemoved.UnmarshalBinary, hr]⟩


/-- Claim C4, witness: the 88 bytes of the add FlowMod with two output actions. -/
theorem FlowMod_MarshalBinary_wire_layout_witness :
    (rawMatchCodec.MarshalBinary addTwoActions.Match).1.length = 40 ∧
    ∃ r, FlowMod.MarshalBinary rawMatchCodec outputCodec addTwoActions = .ok r ∧
      r.data = [1, 14, 0, 88, 0, 0, 0, 7] ++ List.replicate 40 0
        ++ [1, 2, 3, 4, 5, 6, 7, 8] ++ [0, 0] ++ [0, 3] ++ [0, 0] ++ [0, 0]
        ++ [255, 255, 255, 255] ++ [255, 255] ++ [0, 0]
        ++ ([0, 0, 0, 8, 0, 1, 0, 0] ++ [0, 0, 0, 8, 0, 2, 0, 64]) := by
  obtain ⟨r, hdr, h1, h2, _, h4, _⟩ := FlowMod_MarshalBinary_wire_layout rawMatchCodec
    outputCodec addTwoActions
    [ActionOutput.encode { Port := 1, MaxLen := 0 }, ActionOutput.encode { Port := 2, MaxLen := 64 }]
    (by decide) rfl
  refine ⟨by decide, r, h1, ?_⟩
  rw [h4, h2]
  decide

/-- Claim C2, the code at the failing input: the delete FlowMod that holds one output action
marshals without error to 80 bytes whose length field, bytes 2..3, reads 72. -/
theorem FlowMod_MarshalBinary_delete_length_mismatch :
    ∃ r, FlowMod.MarshalBinary rawMatchCodec outputCodec deleteWithAction = .ok r ∧
      r.err = none ∧ Uint16 r.data 2 = .ok 72 ∧ r.data.length = 80 :=
  ⟨_, MarshalBinary_eq _ _ _, by decide, by decide, by decide⟩

/-- Claim C5, counterexample: the first 60 bytes of an 88-byte FlowMod frame. The Header and
the Match sub-decoders read their 8 and 40 bytes without error, and then
`FlowMod.UnmarshalBinary` returns nothing, with any fuel: it faults on the missing bytes, and
so does `FlowRemoved.UnmarshalBinary`. -/
theorem UnmarshalBinary_faults_on_truncated_body :
    (addTwoActionsBytes.take 60).length = 60 ∧
    (Header.UnmarshalBinary { Version := 1, Type_ := 14, Length := 8, Xid := 0 }
        (addTwoActionsBytes.take 60)).2 = none ∧
    (rawMatchCodec.UnmarshalBinary [] ((addTwoActionsBytes.take 60).drop 8)).2 = none ∧
    (¬ ∃ fuel r e, FlowMod.UnmarshalBinary rawMatchCodec outputCodec fuel
        (NewFlowMod { Version := 1, Type_ := 14, Length := 8, Xid := 0 } [] 0xffff)
        (addTwoActionsBytes.take 60) = some (.ret r e)) ∧
    FlowMod.UnmarshalBinary rawMatchCodec outputCodec 1
        (NewFlowMod { Version := 1, Type_ := 14, Length := 8, Xid := 0 } [] 0xffff)
        (addTwoActionsBytes.take 60) = some .fault ∧
    FlowRemoved.UnmarshalBinary rawMatchCodec
        (NewFlowRemoved { Version := 1, Type_ := 11, Length := 8, Xid := 0 } [])
        (addTwoActionsBytes.take 60) = .fault := by
  refine ⟨by decide, by decide, by decide, ?_, by decide, by decide⟩
  rintro ⟨fuel, r, e, h⟩
  have hl : (addTwoActionsBytes.take 60).length < 72 := by decide
  simp [FlowMod.UnmarshalBinary, decodeFixed_fault _ _ _ hl] at h

/-- Claim C5 as amended, witness: the first 60 bytes of an 88-byte frame fault in both
decoders, 90 zero bytes fault in neither. -/
theorem UnmarshalBinary_faults_exactly_on_short_input_witness :
    (∀ fuel, FlowMod.UnmarshalBinary rawMatchCodec outputCodec fuel addTwoActions
      (addTwoActionsBytes.take 60) = some .fault) ∧
    ((∀ fuel, FlowMod.UnmarshalBinary rawMatchCodec outputCodec fuel addTwoActions
        (List.replicate 90 0) ≠ some .fault) ∧
      ((∀ d a, outputCodec.DecodeAction d = .ok a → 0 < outputCodec.Len a % 65536) →
        ∃ fuel r e, FlowMod.UnmarshalBinary rawMatchCodec outputCodec fuel addTwoActions
          (List.replicate 90 0) = some (.ret r e))) ∧
    FlowRemoved.UnmarshalBinary rawMatchCodec
      (NewFlowRemoved { Version := 1, Type_ := 11, Length := 8, Xid := 0 } [])
      (addTwoActionsBytes.take 60) = .fault ∧
    (∃ r e, FlowRemoved.UnmarshalBinary rawMatchCodec
      (NewFlowRemoved { Version := 1, Type_ := 11, Length := 8, Xid := 0 } [])
      (List.replicate 90 0) = .ret r e) :=
  ⟨(UnmarshalBinary_faults_exactly_on_short_input rawMatchCodec outputCodec addTwoActions
      (NewFlowRemoved { Version := 1, Type_ := 11, Length := 8, Xid := 0 } [])
      (addTwoActionsBytes.take 60)).1 (by decide) (by decide) (by decide),
   (UnmarshalBinary_faults_exactly_on_short_input rawMatchCodec outputCodec addTwoActions
      (NewFlowRemoved { Version := 1, Type_ := 11, Length := 8, Xid := 0 } [])
      (List.replicate 90 0)).2.1 (by decide) (by decide),
   (UnmarshalBinary_faults_exactly_on_short_input rawMatchCodec outputCodec addTwoActions
      (NewFlowRemoved { Version := 1, Type_ := 11, Length := 8, Xid := 0 } [])
      (addTwoActionsBytes.take 60)).2.2.1 (by decide) (by decide) (by decide),
   (UnmarshalBinary_faults_exactly_on_short_input rawMatchCodec outputCodec addTwoActions
      (NewFlowRemoved { Version := 1, Type_ := 11, Length := 8, Xid := 0 } [])
      (List.replicate 90 0)).2.2.2 (by decide)⟩

/-- Claim C10, the code at the failing input. On the 4 bytes `01 0e 00 48` the Header
sub-decoder reports an error, and `FlowMod.UnmarshalBinary` and `FlowRemoved.UnmarshalBinary`
fault instead of returning it. On 72 zero bytes a Match sub-decoder that reports an error leaves
`FlowMod.UnmarshalBinary` returning no error. -/
theorem UnmarshalBinary_drops_nested_errors :
    (Header.UnmarshalBinary { Version := 1, Type_ := 14, Length := 8, Xid := 0 }
        [1, 14, 0, 72]).2 = some "header: input too short" ∧
    FlowMod.UnmarshalBinary rawMatchCodec outputCodec 1
        (NewFlowMod { Version := 1, Type_ := 14, Length := 8, Xid := 0 } [] 0xffff)
        [1, 14, 0, 72] = some .fault ∧
    FlowRemoved.UnmarshalBinary rawMatchCodec
        (NewFlowRemoved { Version := 1, Type_ := 11, Length := 8, Xid := 0 } [])
        [1, 14, 0, 72] = .fault ∧
    (rejectingMatchCodec.UnmarshalBinary () ((List.replicate 72 0).drop 8)).2
        = some "match: rejected" ∧
    ∃ f, FlowMod.UnmarshalBinary rejectingMatchCodec outputCodec 1
        (NewFlowMod { Version := 1, Type_ := 14, Length := 8, Xid := 0 } () 0xffff)
        (List.replicate 72 0) = some (.ret f none) :=
  ⟨by decide, by decide, by decide, by decide,
    { Header := { Version := 0, Type_ := 0, Length := 0, Xid := 0 }, Match := (), Cookie := 0,
      Command := 0, IdleTimeout := 0, HardTimeout := 0, Priority := 0, BufferId := 0,
      OutPort := 0, Flags := 0, Actions := [] }, by decide⟩

theorem decodeFixed_eq (M : MatchCodec μ) (f : FlowMod μ α) (data : List UInt8)
    (h : 72 ≤ data.length) :
    FlowMod.decodeFixed M f data = .ok
      ({ Header := (f.Header.UnmarshalBinary data).1
         Match := (M.UnmarshalBinary f.Match (data.drop 8)).1
         Cookie := beValue ((data.drop 48).take 8)
         Command := beValue ((data.drop 56).take 2)
         IdleTimeout := beValue ((data.drop 58).take 2)
         HardTimeout := beValue ((data.drop 60).take 2)
         Priority := beValue ((data.drop 62).take 2)
         BufferId := beValue ((data.drop 64).take 4)
         OutPort := beValue ((data.drop 68).take 2)
         Flags := beValue ((data.drop 70).take 2)
         Actions := f.Actions }, 72) := by
  simp (disch := omega) [FlowMod.decodeFixed, Header.Len, MatchCodec.Len, Uint64, Uint32,
    Uint16, getUint_of_le, sliceFrom_of_le]

theorem decodeActions_append (A : ActionCodec α) (data : List UInt8) :
    ∀ (fuel : Nat) (f : FlowMod μ α) (n : Nat) (xs : List α) (r : FlowMod μ α)
      (e : Option Err),
      FlowMod.decodeActions A data fuel f n = some (.ret r e) →
      FlowMod.decodeActions A data fuel { f with Actions := xs ++ f.Actions } n
        = some (.ret { r with Actions := xs ++ r.Actions } e) := by
  intro fuel
  induction fuel with
  | zero => intro f n xs r e h; simp [FlowMod.decodeActions] at h
  | succ k ih =>
    intro f n xs r e h
    by_cases hn : n < f.Header.Length
    · cases hs : sliceFrom data n with
      | fault => simp [FlowMod.decodeActions, hn, hs] at h
      | ok d =>
        cases hd : A.DecodeAction d with
        | error err =>
          simp only [FlowMod.decodeActions, if_pos hn, hs, hd, Option.some.injEq,
            Run.ret.injEq] at h ⊢
          obtain ⟨rfl, rfl⟩ := h
          exact ⟨rfl, rfl⟩
        | ok a =>
          simp only [FlowMod.decodeActions, if_pos hn, hs, hd] at h ⊢
          have := ih _ _ xs r e h
          simpa [List.append_assoc] using this
    · simp only [FlowMod.decodeActions, if_neg hn, Option.some.injEq, Run.ret.injEq] at h ⊢
      obtain ⟨rfl, rfl⟩ := h
      exact ⟨rfl, rfl⟩

/-- Claim C20: FlowMod.UnmarshalBinary accumulates actions. Whenever decoding an input into
the receiver with an emptied action list returns r (with the decoded actions r.Actions),
decoding the same input into the receiver f itself returns the same value with the action list
f.Actions ++ r.Actions, the previous actions in front; this is the decoded list exactly when
f.Actions is empty. -/
theorem FlowMod_UnmarshalBinary_appends_actions (M : MatchCodec μ) (A : ActionCodec α)
    (fuel : Nat) (f r : FlowMod μ α) (data : List UInt8) (e : Option Err)
    (h : FlowMod.UnmarshalBinary M A fuel { f with Actions := [] } data = some (.ret r e)) :
    FlowMod.UnmarshalBinary M A fuel f data
      = some (.ret { r with Actions := f.Actions ++ r.Actions } e) ∧
    (f.Actions ++ r.Actions = r.Actions ↔ f.Actions = []) := by
  refine ⟨?_, by simp⟩
  by_cases hl : 72 ≤ data.length
  · simp only [FlowMod.UnmarshalBinary, decodeFixed_eq M _ data hl] at h ⊢
    have := decodeActions_append A data fuel _ 72 f.Actions r e h
    simpa using this
  · have hf : ∀ g : FlowMod μ α, FlowMod.decodeFixed M g data = .fault :=
      fun g => decodeFixed_fault M g data (by omega)
    simp [FlowMod.UnmarshalBinary, hf] at h


theorem beValue_lt (bs : List UInt8) : beValue bs < 256 ^ bs.length := by
  have key : ∀ (bs : List UInt8) (acc : Nat),
      bs.foldl (fun acc b => acc * 256 + b.toNat) acc < (acc + 1) * 256 ^ bs.length := by
    intro bs
    induction bs with
    | nil => intro acc; simp
    | cons b bs ih =>
      intro acc
      have hb : b.toNat < 256 := UInt8.toNat_lt_size b
      have h1 := ih (acc * 256 + b.toNat)
      simp only [List.foldl_cons, List.length_cons]
      calc List.foldl (fun acc b => acc * 256 + b.toNat) (acc * 256 + b.toNat) bs
          < (acc * 256 + b.toNat + 1) * 256 ^ bs.length := h1
        _ ≤ ((acc + 1) * 256) * 256 ^ bs.length := by
            apply Nat.mul_le_mul_right; omega
        _ = (acc + 1) * 256 ^ (bs.length + 1) := by ring
  simpa [beValue] using key bs 0

theorem decodeActions_exact (A : ActionCodec α) (data trailing : List UInt8) :
    ∀ (as : List α) (pre : List UInt8) (f : FlowMod μ α),
      (∀ a ∈ as, A.DecodesExactly a) → (∀ a ∈ as, A.Len a < 65536) →
      data = pre ++ ((as.map (actionBytes A)).flatten ++ trailing) →
      f.Header.Length = pre.length + (as.map A.Len).sum →
      ∀ fuel, as.length < fuel → FlowMod.decodeActions A data fuel f pre.length
          = some (.ret { f with Actions := f.Actions ++ as } none) := by
  intro as
  induction as with
  | nil =>
    intro pre f _ _ _ hlen fuel hfuel
    obtain ⟨k, rfl⟩ : ∃ k, fuel = k + 1 := ⟨fuel - 1, by simp at hfuel; omega⟩
    have : ¬ pre.length < f.Header.Length := by simp at hlen; omega
    simp [FlowMod.decodeActions, this]
  | cons a as ih =>
    intro pre f hrt hlt hdata hlen fuel hfuel
    obtain ⟨_, hel, hpos, hdec⟩ := hrt a (List.mem_cons_self _ _)
    have hb := hdec ((as.map (actionBytes A)).flatten ++ trailing)
    have hal := hlt a (List.mem_cons_self _ _)
    simp only [List.map_cons, List.sum_cons, List.flatten_cons, List.append_assoc]
      at hdata hlen
    have hn : pre.length < f.Header.Length := by omega
    have hs : sliceFrom data pre.length
        = .ok (actionBytes A a ++ ((as.map (actionBytes A)).flatten ++ trailing)) := by
      simp [sliceFrom, hdata]
    obtain ⟨k, rfl⟩ : ∃ k, fuel = k + 1 := ⟨fuel - 1, by simp at hfuel; omega⟩
    have h1 := ih (pre ++ actionBytes A a) { f with Actions := f.Actions ++ [a] }
      (fun x hx => hrt x (List.mem_cons_of_mem _ hx))
      (fun x hx => hlt x (List.mem_cons_of_mem _ hx))
      (by simp [hdata]) (by simp [hlen, hel]; omega) k (by simp at hfuel; omega)
    have hmod : A.Len a % 65536 = (actionBytes A a).length := by rw [hel]; omega
    simp only [FlowMod.decodeActions, if_pos hn, hs, hb, hmod]
    simp only [List.length_append] at h1
    simp [h1]

/-- Claim C13: action decoding is driven by the declared length. For 72 fixed bytes whose
length field declares L = 72 + the lengths of the actions a1..ak, followed by the encodings of
a1..ak (each of positive length equal to its Len, each decoding back to itself) and by any
trailing bytes, FlowMod.UnmarshalBinary into a FlowMod with no actions returns (for every fuel
above k) with no error and exactly the actions a1..ak in order; with no actions (L = 72) the
decoded list is empty. -/
theorem FlowMod_UnmarshalBinary_actions_by_declared_length (M : MatchCodec μ)
    (A : ActionCodec α) (f : FlowMod μ α) (fixed trailing : List UInt8) (as : List α)
    (hf : f.Actions = []) (hfix : fixed.length = 72)
    (hL : beValue ((fixed.drop 2).take 2) = 72 + (as.map A.Len).sum)
    (ha : ∀ a ∈ as, A.DecodesExactly a) :
    ∃ r, (∀ fuel, as.length < fuel →
        FlowMod.UnmarshalBinary M A fuel f
          (fixed ++ ((as.map (actionBytes A)).flatten ++ trailing)) = some (.ret r none)) ∧
      r.Actions = as ∧ (as = [] → r.Actions = []) := by
  have hlt : beValue ((fixed.drop 2).take 2) < 65536 := by
    have := beValue_lt ((fixed.drop 2).take 2)
    have hl2 : ((fixed.drop 2).take 2).length = 2 := by simp [hfix]
    rw [hl2] at this
    omega
  have hlen : 72 ≤ (fixed ++ ((as.map (actionBytes A)).flatten ++ trailing)).length := by
    simp [hfix]
  have hhdr : ((fixed ++ ((as.map (actionBytes A)).flatten ++ trailing)).drop 2).take 2
      = (fixed.drop 2).take 2 := by
    simp [List.drop_append_eq_append_drop, List.take_append_eq_append_take, hfix]
  have h8 : ¬ (fixed ++ ((as.map (actionBytes A)).flatten ++ trailing)).length < 8 := by
    omega
  obtain ⟨f1, hf1, hA, hLen⟩ : ∃ f1 : FlowMod μ α,
      FlowMod.decodeFixed M f (fixed ++ ((as.map (actionBytes A)).flatten ++ trailing))
        = .ok (f1, 72) ∧ f1.Actions = f.Actions ∧
      f1.Header.Length = beValue ((fixed.drop 2).take 2) :=
    ⟨_, decodeFixed_eq M f _ hlen, rfl, by
      simp only [Header.UnmarshalBinary, if_neg h8, hhdr]⟩
  have hdec := decodeActions_exact A (fixed ++ ((as.map (actionBytes A)).flatten ++ trailing))
    trailing as fixed f1 ha
    (fun a hmem => by have := sum_len_le A as a hmem; omega) rfl
    (by rw [hLen, hL, hfix])
  refine ⟨{ f1 with Actions := f1.Actions ++ as }, fun fuel hfuel => ?_, ?_, ?_⟩
  · simp only [FlowMod.UnmarshalBinary, hf1]
    have := hdec fuel hfuel
    rw [hfix] at this
    exact this
  · simp [hA, hf]
  · intro h; simp [hA, hf, h]

theorem FlowRemoved_MarshalBinary_eq (M : MatchCodec μ) (f : FlowRemoved μ)
    (hm : (M.MarshalBinary f.Match).1.length = 40) (hp : f.pad.length = 1)
    (hp2 : f.pad2.length = 2) :
    FlowRemoved.MarshalBinary M f = .ok
      { self := f
        data := f.Header.MarshalBinary.1 ++ (M.MarshalBinary f.Match).1 ++ removedFields f
          ++ [0, 0]
        err := (M.MarshalBinary f.Match).2 } := by
  obtain ⟨p, hpe⟩ : ∃ p, f.pad = [p] := by
    match hq : f.pad, hp with
    | [p], _ => exact ⟨p, rfl⟩
  obtain ⟨q1, q2, hqe⟩ : ∃ q1 q2, f.pad2 = [q1, q2] := by
    match hq : f.pad2, hp2 with
    | [q1, q2], _ => exact ⟨q1, q2, rfl⟩
  generalize hmb : (M.MarshalBinary f.Match).1 = mb at hm
  simp only [FlowRemoved.MarshalBinary, FlowRemoved.Len, Header.Len, MatchCodec.Len,
    PutUint64, PutUint16, PutUint32, makeBytes, Header.MarshalBinary, hmb, hpe, hqe,
    removedFields]
  simp [putUint, copyAt, setIndex, overwrite, beBytes, List.replicate, hm,
    List.take_append_eq_append_take, List.drop_append_eq_append_drop, List.drop_eq_nil_of_le,
    List.take_of_length_le]

theorem beValue_ofNat (v : Nat) : beValue [UInt8.ofNat v] = v % 256 := by
  have h : (UInt8.ofNat v).toNat = v % 256 := rfl
  simp [beValue, h]

theorem beValue_singleton_get (data : List UInt8) (n : Nat) (h : n < data.length) :
    (data.get ⟨n, h⟩).toNat = beValue ((data.drop n).take 1) := by
  have e : data.drop n = data.get ⟨n, h⟩ :: data.drop (n + 1) :=
    List.drop_eq_getElem_cons h
  rw [e]
  simp only [beValue, List.take_succ_cons, List.take_zero, List.foldl_cons, List.foldl_nil,
    Nat.zero_mul, Nat.zero_add]

theorem FlowRemoved.decode_eq (M : MatchCodec μ) (g : FlowRemoved μ) (data : List UInt8)
    (hp : g.pad.length = 1) (hp2 : g.pad2.length = 2) (h : 88 ≤ data.length) :
    ∃ r, FlowRemoved.decode M g data
        = .ok (r, (M.UnmarshalBinary g.Match (data.drop 8)).2) ∧
      r.Header = (g.Header.UnmarshalBinary data).1 ∧
      r.Match = (M.UnmarshalBinary g.Match (data.drop 8)).1 ∧
      r.Cookie = beValue ((data.drop 48).take 8) ∧
      r.Priority = beValue ((data.drop 56).take 2) ∧
      r.Reason = beValue ((data.drop 58).take 1) ∧
      r.pad = overwrite g.pad 0 (data.drop 59) ∧
      r.DurationSec = beValue ((data.drop 60).take 4) ∧
      r.DurationNSec = beValue ((data.drop 64).take 4) ∧
      r.IdleTimeout = beValue ((data.drop 68).take 2) ∧
      r.pad2 = overwrite g.pad2 0 (data.drop 70) ∧
      r.PacketCount = beValue ((data.drop 72).take 8) ∧
      r.ByteCount = beValue ((data.drop 80).take 8) := by
  have h58 : 58 < data.length := by omega
  simp (disch := omega) [FlowRemoved.decode, Header.Len, MatchCodec.Len, Uint64, Uint32,
    Uint16, getUint_of_le, sliceFrom_of_le, index_of_lt, hp, hp2,
    ← beValue_singleton_get data 58 h58]

/-- Claim C12: FlowRemoved round trip. For every FlowRemoved m with fields in the ranges of
their Go types, pad of size 1 and pad2 of size 2, and a Match that encodes to 40 bytes and
decodes back without error to an Equal match, MarshalBinary succeeds and UnmarshalBinary of its
bytes into a fresh NewFlowRemoved returns no error and a value with the same Header, an Equal
Match and the same Cookie, Priority, Reason, DurationSec, DurationNSec, IdleTimeout,
PacketCount and ByteCount. -/
theorem FlowRemoved_roundtrip (M : MatchCodec μ) (m : FlowRemoved μ) (newHeader : Header)
    (newMatch : μ) (hwt : m.WellTyped) (hp : m.pad.length = 1) (hp2 : m.pad2.length = 2)
    (hml : (M.MarshalBinary m.Match).1.length = 40)
    (hmr : ∀ rest, (M.UnmarshalBinary newMatch ((M.MarshalBinary m.Match).1 ++ rest)).2 = none ∧
      M.Equal m.Match
        (M.UnmarshalBinary newMatch ((M.MarshalBinary m.Match).1 ++ rest)).1 = true) :
    ∃ r f, FlowRemoved.MarshalBinary M m = .ok r ∧
      FlowRemoved.UnmarshalBinary M (NewFlowRemoved newHeader newMatch) r.data = .ret f none ∧
      f.Header = m.Header ∧ M.Equal m.Match f.Match = true ∧ f.Cookie = m.Cookie ∧
      f.Priority = m.Priority ∧ f.Reason = m.Reason ∧ f.DurationSec = m.DurationSec ∧
      f.DurationNSec = m.DurationNSec ∧ f.IdleTimeout = m.IdleTimeout ∧
      f.PacketCount = m.PacketCount ∧ f.ByteCount = m.ByteCount := by
  obtain ⟨w1, w2, w3, w4, w5, w6, w7, w8, w9, w10, w11, w12⟩ := hwt
  have hh : (Header.MarshalBinary m.Header).1.length = 8 := by simp [Header.MarshalBinary]
  have hH := Header.UnmarshalBinary_MarshalBinary m.Header newHeader
    ((M.MarshalBinary m.Match).1 ++ removedFields m ++ [0, 0])
  have hM := hmr (removedFields m ++ [0, 0])
  generalize hd : (Header.MarshalBinary m.Header).1 ++ (M.MarshalBinary m.Match).1
    ++ removedFields m ++ [0, 0] = data
  have hlen : 88 ≤ data.length := by
    subst hd; simp [hh, hml, removedFields, hp, hp2]
  obtain ⟨f, hf, e1, e2, e3, e4, e5, -, e7, e8, e9, -, e11, e12⟩ :=
    FlowRemoved.decode_eq M (NewFlowRemoved newHeader newMatch) data rfl rfl hlen
  have hdrop8 : data.drop 8 = (M.MarshalBinary m.Match).1 ++ (removedFields m ++ [0, 0]) := by
    subst hd
    simp [hh, List.drop_append_eq_append_drop, List.drop_eq_nil_of_le]
  refine ⟨_, f, FlowRemoved_MarshalBinary_eq M m hml hp hp2, ?_, ?_, ?_, ?_, ?_, ?_, ?_, ?_,
    ?_, ?_, ?_⟩
  · have hnone : (M.UnmarshalBinary (NewFlowRemoved newHeader newMatch).Match
        (data.drop 8)).2 = none := by rw [hdrop8]; exact hM.1
    rw [hd]
    simp only [FlowRemoved.UnmarshalBinary, hf, hnone]
  · rw [e1]
    simp only [NewFlowRemoved]
    rw [← hd]
    simp only [List.append_assoc] at hH ⊢
    rw [hH]
    cases hmh : m.Header
    simp [hmh] at w1 w2 w3 w4 ⊢
    omega
  · rw [e2]; simp only [NewFlowRemoved, hdrop8]; exact hM.2
  all_goals
    first
      | rw [e3] | rw [e4] | rw [e5] | rw [e7] | rw [e8] | rw [e9] | rw [e11] | rw [e12]
  all_goals
    subst hd
    simp [removedFields, hh, hml, hp, hp2, List.drop_append_eq_append_drop,
      List.take_append_eq_append_take, List.drop_eq_nil_of_le, beValue_beBytes,
      beValue_ofNat, Nat.mod_eq_of_lt]
    omega

theorem outputCodec_decodesExactly (a : ActionOutput) (hp : a.Port < 65536)
    (hm : a.MaxLen < 65536) : outputCodec.DecodesExactly a := by
  have e : actionBytes outputCodec a = a.encode := rfl
  refine ⟨rfl, rfl, Nat.succ_pos _, fun rest => ?_⟩
  rw [e]
  have t0 : (a.encode ++ rest).take 2 = beBytes 2 0 := by
    simp [ActionOutput.encode, List.take_append_eq_append_take]
  have t2 : ((a.encode ++ rest).drop 2).take 2 = beBytes 2 8 := by
    simp [ActionOutput.encode, List.take_append_eq_append_take, List.drop_append_eq_append_drop,
      List.drop_eq_nil_of_le]
  have t4 : ((a.encode ++ rest).drop 4).take 2 = beBytes 2 a.Port := by
    simp [ActionOutput.encode, List.take_append_eq_append_take, List.drop_append_eq_append_drop,
      List.drop_eq_nil_of_le]
  have t6 : ((a.encode ++ rest).drop 6).take 2 = beBytes 2 a.MaxLen := by
    simp [ActionOutput.encode, List.take_append_eq_append_take, List.drop_append_eq_append_drop,
      List.drop_eq_nil_of_le]
  have hl : ¬ (a.encode ++ rest).length < 8 := by
    simp [ActionOutput.encode]; omega
  show ActionOutput.decode (a.encode ++ rest) = .ok a
  simp only [ActionOutput.decode, if_neg hl, t0, t2, t4, t6, beValue_beBytes]
  simp [Nat.mod_eq_of_lt, hp, hm]

theorem rawMatchCodec_decodes (m m0 rest : List UInt8) (h : m.length = 40) :
    (rawMatchCodec.UnmarshalBinary m0 ((rawMatchCodec.MarshalBinary m).1 ++ rest)).2 = none := by
  have e1 : m.take 40 = m := List.take_of_length_le (by omega)
  have hl : ¬ (m ++ rest).length < 40 := by simp [h]
  simp [rawMatchCodec, h, e1, hl]

/-- Witness of claim C13: the 72 fixed bytes of an add FlowMod declaring length 88, followed by
the encodings of two output actions and three stray bytes, decode into a fresh FlowMod with
exactly those two actions and no error. -/
theorem FlowMod_UnmarshalBinary_actions_by_declared_length_witness :
    ∃ r, (∀ fuel, addTwoActions.Actions.length < fuel →
        FlowMod.UnmarshalBinary rawMatchCodec outputCodec fuel
          (NewFlowMod { Version := 1, Type_ := 14, Length := 8, Xid := 0 } [] 0xffff)
          (addTwoActionsFixed
            ++ ((addTwoActions.Actions.map (actionBytes outputCodec)).flatten ++ [9, 9, 9]))
          = some (.ret r none)) ∧
      r.Actions = addTwoActions.Actions ∧ (addTwoActions.Actions = [] → r.Actions = []) :=
  FlowMod_UnmarshalBinary_actions_by_declared_length rawMatchCodec outputCodec
    (NewFlowMod { Version := 1, Type_ := 14, Length := 8, Xid := 0 } [] 0xffff)
    addTwoActionsFixed [9, 9, 9] addTwoActions.Actions rfl (by decide) (by decide)
    (fun a ha => outputCodec_decodesExactly a
      (by simp [addTwoActions] at ha; rcases ha with rfl | rfl <;> decide)
      (by simp [addTwoActions] at ha; rcases ha with rfl | rfl <;> decide))

/-- Witness of claim C20: decoding a frame with two output actions into a FlowMod that already
holds the same two actions leaves it with four actions, the previous two in front. -/
theorem FlowMod_UnmarshalBinary_appends_actions_witness :
    FlowMod.UnmarshalBinary rawMatchCodec outputCodec 3 addTwoActions addTwoActionsBytes
      = some (.ret { addTwoActions with
                     Header := { Version := 1, Type_ := 14, Length := 88, Xid := 7 }
                     Actions := addTwoActions.Actions ++ addTwoActions.Actions } none) ∧
    (addTwoActions.Actions ++ addTwoActions.Actions = addTwoActions.Actions
      ↔ addTwoActions.Actions = []) :=
  FlowMod_UnmarshalBinary_appends_actions rawMatchCodec outputCodec 3 addTwoActions
    { addTwoActions with Header := { Version := 1, Type_ := 14, Length := 88, Xid := 7 } }
    addTwoActionsBytes none (by decide)

/-- Witness of claim C12: the sample FlowRemoved, with a Match kept as its 40 wire bytes,
encodes and decodes back into a fresh FlowRemoved with every field equal. -/
theorem FlowRemoved_roundtrip_witness :
    ∃ r f, FlowRemoved.MarshalBinary rawMatchCodec removedSample = .ok r ∧
      FlowRemoved.UnmarshalBinary rawMatchCodec
        (NewFlowRemoved { Version := 1, Type_ := 11, Length := 8, Xid := 0 } []) r.data
        = .ret f none ∧
      f.Header = removedSample.Header ∧
      rawMatchCodec.Equal removedSample.Match f.Match = true ∧
      f.Cookie = removedSample.Cookie ∧ f.Priority = removedSample.Priority ∧
      f.Reason = removedSample.Reason ∧ f.DurationSec = removedSample.DurationSec ∧
      f.DurationNSec = removedSample.DurationNSec ∧
      f.IdleTimeout = removedSample.IdleTimeout ∧
      f.PacketCount = removedSample.PacketCount ∧ f.ByteCount = removedSample.ByteCount :=
  FlowRemoved_roundtrip rawMatchCodec removedSample
    { Version := 1, Type_ := 11, Length := 8, Xid := 0 } []
    (by unfold FlowRemoved.WellTyped; decide) (by decide) (by decide) (by decide)
    (fun rest => ⟨rawMatchCodec_decodes _ _ rest (by decide),
      rawMatchCodec_roundtrip _ _ rest (by decide)⟩)

/-- Claim C11 (FlowRemoved wire layout) fails in the code: for a FlowRemoved with the pads of
NewFlowRemoved (one and two zero bytes), a header of declared length 8 and a Match of 40 bytes,
MarshalBinary returns 90 bytes, not 88, because Len adds 42 to the header and match lengths
where the fields sum to 40. The first 88 bytes follow the claimed layout, two zero bytes follow
them, and the length field at bytes 2..3 still reads 8: MarshalBinary never stores Len in the
header. -/
theorem FlowRemoved_MarshalBinary_length_mismatch :
    removedSample.pad = [0] ∧ removedSample.pad2 = [0, 0] ∧
    ∃ r, FlowRemoved.MarshalBinary rawMatchCodec removedSample = .ok r ∧
      r.err = none ∧ r.data.length = 90 ∧ FlowRemoved.Len rawMatchCodec removedSample = 90 ∧
      Uint16 r.data 2 = .ok 8 ∧
      r.data = [1, 11, 0, 8, 0, 0, 0, 9] ++ List.replicate 40 0
        ++ [1, 2, 3, 4, 5, 6, 7, 8] ++ [0, 7] ++ [2] ++ [0] ++ [0, 0, 0, 3] ++ [0, 0, 0, 4]
        ++ [0, 5] ++ [0, 0] ++ [0, 0, 0, 0, 0, 0, 0, 6] ++ [0, 0, 0, 0, 0, 0, 0, 7]
        ++ [0, 0] :=
  ⟨by decide, by decide, _,
    FlowRemoved_MarshalBinary_eq rawMatchCodec removedSample (by decide) (by decide) (by decide),
    by decide, by decide, by decide, by decide, by decide⟩

end CodecTheorems

end Openflow10

/-! ## The framer -/

namespace Stream

open Openflow10

theorem Framer.reads_eq_read_flatten (s : Framer) (chunks : List (List UInt8)) :
    s.reads chunks = s.read chunks.flatten := by
  induction chunks generalizing s with
  | nil => rfl
  | cons c cs ih =>
    simp only [Framer.reads, List.foldl_cons, List.flatten_cons, Framer.read, List.foldl_append]
    exact ih _

/-- Claim C6 (framing is independent of the reads). From any framer state, two sequences of
read chunks that carry the same byte stream leave the same state: the same `hdr`, `msg`,
`hdrBuf` and current buffer, and the same buffers handed to the Full queue in the same order. -/
theorem Framer_reads_independent_of_chunking (s : Framer) (chunks₁ chunks₂ : List (List UInt8))
    (h : chunks₁.flatten = chunks₂.flatten) : s.reads chunks₁ = s.reads chunks₂ := by
  rw [Framer.reads_eq_read_flatten, Framer.reads_eq_read_flatten, h]

/-- Claim C6, witness: 17 bytes read in three chunks and in one. -/
theorem Framer_reads_independent_of_chunking_witness :
    [[1, 14, 0, 8, 0], [0, 0, 7, 1], [0, 0, 9, 0, 0, 0, 1, 5]].flatten
      = ([[1, 14, 0, 8, 0, 0, 0, 7, 1, 0, 0, 9, 0, 0, 0, 1, 5]] : List (List UInt8)).flatten ∧
    Framer.init.reads [[1, 14, 0, 8, 0], [0, 0, 7, 1], [0, 0, 9, 0, 0, 0, 1, 5]]
      = Framer.init.reads [[1, 14, 0, 8, 0, 0, 0, 7, 1, 0, 0, 9, 0, 0, 0, 1, 5]] :=
  ⟨by decide, Framer_reads_independent_of_chunking Framer.init _ _ (by decide)⟩

theorem Framer.read_body (rest : List UInt8) :
    ∀ (s : Framer), 4 ≤ s.hdr → s.msg = rest.length → 0 < rest.length →
      s.read rest = { s with msg := 0, hdr := 0, buf := [], full := s.full ++ [s.buf ++ rest] } := by
  induction rest with
  | nil => intro s _ _ h; simp at h
  | cons b bs ih =>
    intro s h4 hm _
    have hh : ¬ s.hdr < 4 := by omega
    simp only [List.length_cons, Nat.cast_add, Nat.cast_one] at hm
    cases bs with
    | nil =>
      simp only [List.length_nil, Nat.cast_zero, zero_add] at hm
      simp [Framer.read, Framer.step, hh, hm]
    | cons c cs =>
      have hpos : s.msg > 0 := by rw [hm]; positivity
      have hne : ¬ s.msg - 1 = 0 := by
        rw [hm]; simp only [List.length_cons, Nat.cast_add, Nat.cast_one]; omega
      have hstep : s.step b = { s with msg := s.msg - 1, buf := s.buf ++ [b] } := by
        simp [Framer.step, hh, hpos, hne]
      have := ih { s with msg := s.msg - 1, buf := s.buf ++ [b] } h4
        (by simp only [hm]; omega) (by simp)
      simp only [Framer.read, List.foldl_cons] at this ⊢
      rw [hstep]
      simpa using this


theorem Framer.read_message (m : List UInt8) (hm : WellFramed m) (s : Framer)
    (h0 : s.hdr = 0) (hb : s.buf = []) (hl : s.hdrBuf.length = 4) :
    ∃ hdrBuf, hdrBuf.length = 4 ∧
      s.read m = { s with msg := 0, hdr := 0, buf := [], hdrBuf := hdrBuf,
                          full := s.full ++ [m] } := by
  obtain ⟨h8, hlen⟩ := hm
  obtain ⟨b0, b1, b2, b3, rest, rfl⟩ : ∃ b0 b1 b2 b3 rest, m = b0 :: b1 :: b2 :: b3 :: rest := by
    match m, h8 with
    | b0 :: b1 :: b2 :: b3 :: rest, _ => exact ⟨b0, b1, b2, b3, rest, rfl⟩
  obtain ⟨x0, x1, x2, x3, hx⟩ : ∃ x0 x1 x2 x3, s.hdrBuf = [x0, x1, x2, x3] := by
    match hq : s.hdrBuf, hl with
    | [x0, x1, x2, x3], _ => exact ⟨x0, x1, x2, x3, rfl⟩
  simp only [List.length_cons] at h8 hlen
  simp only [List.drop_succ_cons, List.drop_zero, List.take_succ_cons, List.take_zero] at hlen
  have h4 : s.read [b0, b1, b2, b3]
      = { s with msg := (beValue [b2, b3] : Int) - 4, hdr := 4, hdrBuf := [b0, b1, b2, b3],
                 buf := [b0, b1, b2, b3] } := by
    simp [Framer.read, Framer.step, h0, hb, hx]
  refine ⟨[b0, b1, b2, b3], rfl, ?_⟩
  have hsplit : s.read (b0 :: b1 :: b2 :: b3 :: rest) = (s.read [b0, b1, b2, b3]).read rest := by
    simp [Framer.read]
  rw [hsplit, h4]
  rw [Framer.read_body rest _ (by simp) (by simp only [hlen]; push_cast; omega) (by omega)]
  simp

theorem Framer.read_messages (msgs : List (List UInt8)) :
    ∀ (s : Framer), (∀ m ∈ msgs, WellFramed m) → s.hdr = 0 → s.buf = [] →
      s.hdrBuf.length = 4 →
      ∃ hdrBuf, hdrBuf.length = 4 ∧
        s.read msgs.flatten =
          { s with
            msg := (if msgs = [] then s.msg else 0), hdr := 0, buf := [], hdrBuf := hdrBuf,
            full := s.full ++ msgs } := by
  induction msgs with
  | nil =>
    intro s _ h0 hb hl
    refine ⟨s.hdrBuf, hl, ?_⟩
    cases s
    simp_all [Framer.read]
  | cons m ms ih =>
    intro s hw h0 hb hl
    obtain ⟨hb1, hl1, h1⟩ := Framer.read_message m (hw m (List.mem_cons_self _ _)) s h0 hb hl
    obtain ⟨hb2, hl2, h2⟩ := ih
      { s with msg := 0, hdr := 0, buf := [], hdrBuf := hb1, full := s.full ++ [m] }
      (fun x hx => hw x (List.mem_cons_of_mem _ hx)) rfl rfl hl1
    refine ⟨hb2, hl2, ?_⟩
    have hsplit : s.read (m :: ms).flatten = (s.read m).read ms.flatten := by
      simp [Framer.read]
    rw [hsplit, h1, h2]
    simp

/-- Claim C7 (framer segmentation). If every message of `msgs` is at least 8 bytes long and
holds its own length in the big-endian field at bytes 2..3, then reading their concatenation,
in whatever chunks, from the initial state hands exactly the buffers `msgs` to the Full queue,
in order, and leaves the framer accumulating a header (`hdr = 0`, `msg = 0`) with an empty
current buffer. -/
theorem Framer_segments_messages (msgs chunks : List (List UInt8))
    (h : ∀ m ∈ msgs, WellFramed m) (hc : chunks.flatten = msgs.flatten) :
    (Framer.init.reads chunks).full = msgs ∧
    (Framer.init.reads chunks).hdr = 0 ∧
    (Framer.init.reads chunks).msg = 0 ∧
    (Framer.init.reads chunks).buf = [] := by
  obtain ⟨hb, _, he⟩ := Framer.read_messages msgs Framer.init h rfl rfl rfl
  rw [Framer.reads_eq_read_flatten, hc, he]
  simp [Framer.init]

/-- Claim C7, witness: an 8-byte and a 9-byte message read in three chunks. -/
theorem Framer_segments_messages_witness :
    (Framer.init.reads [[1, 14, 0, 8, 0], [0, 0, 7, 1, 0, 0, 9], [0, 0, 0, 1, 5]]).full
      = [[1, 14, 0, 8, 0, 0, 0, 7], [1, 0, 0, 9, 0, 0, 0, 1, 5]] ∧
    (Framer.init.reads [[1, 14, 0, 8, 0], [0, 0, 7, 1, 0, 0, 9], [0, 0, 0, 1, 5]]).hdr = 0 ∧
    (Framer.init.reads [[1, 14, 0, 8, 0], [0, 0, 7, 1, 0, 0, 9], [0, 0, 0, 1, 5]]).msg = 0 ∧
    (Framer.init.reads [[1, 14, 0, 8, 0], [0, 0, 7, 1, 0, 0, 9], [0, 0, 0, 1, 5]]).buf = [] :=
  Framer_segments_messages [[1, 14, 0, 8, 0, 0, 0, 7], [1, 0, 0, 9, 0, 0, 0, 1, 5]]
    [[1, 14, 0, 8, 0], [0, 0, 7, 1, 0, 0, 9], [0, 0, 0, 1, 5]]
    (by intro m hm; simp at hm; rcases hm with rfl | rfl <;> (unfold WellFramed; decide))
    (by decide)

theorem Framer.step_stalled (s : Framer) (b : UInt8) (h4 : 4 ≤ s.hdr) (hm : s.msg ≤ 0) :
    s.step b = s := by
  have h1 : ¬ s.hdr < 4 := by omega
  have h2 : ¬ s.msg > 0 := by omega
  simp [Framer.step, h1, h2]

theorem Framer.read_stalled (s : Framer) (bytes : List UInt8) (h4 : 4 ≤ s.hdr)
    (hm : s.msg ≤ 0) : s.read bytes = s := by
  induction bytes with
  | nil => rfl
  | cons b bs ih =>
    simp only [Framer.read, List.foldl_cons, Framer.step_stalled s b h4 hm]
    exact ih

theorem Framer.reads_stalled (s : Framer) (chunks : List (List UInt8)) (h4 : 4 ≤ s.hdr)
    (hm : s.msg ≤ 0) : s.reads chunks = s := by
  induction chunks with
  | nil => rfl
  | cons c cs ih =>
    simp only [Framer.reads, List.foldl_cons, Framer.read_stalled s c h4 hm]
    exact ih

/-- Claim C19: the framer stalls on a declared length of 4 or less. From a framer state at the
start of a message, after reading four header bytes whose length field (bytes 2..3) is at most
4, the framer has hdr = 4 and msg <= 0, every further byte leaves the state unchanged, and so
after any further chunks the state and the list of buffers handed to Full are the same. -/
theorem Framer_stalls_on_short_length (s : Framer) (b0 b1 b2 b3 : UInt8)
    (chunks : List (List UInt8))
    (h0 : s.hdr = 0) (hl : s.hdrBuf.length = 4) (hlen : beValue [b2, b3] ≤ 4) :
    (s.read [b0, b1, b2, b3]).hdr = 4 ∧
    (s.read [b0, b1, b2, b3]).msg = (beValue [b2, b3] : Int) - 4 ∧
    (s.read [b0, b1, b2, b3]).full = s.full ∧
    (∀ b, (s.read [b0, b1, b2, b3]).step b = s.read [b0, b1, b2, b3]) ∧
    (s.read [b0, b1, b2, b3]).reads chunks = s.read [b0, b1, b2, b3] ∧
    ((s.read [b0, b1, b2, b3]).reads chunks).full = s.full := by
  obtain ⟨x0, x1, x2, x3, hx⟩ : ∃ x0 x1 x2 x3, s.hdrBuf = [x0, x1, x2, x3] := by
    match hq : s.hdrBuf, hl with
    | [x0, x1, x2, x3], _ => exact ⟨x0, x1, x2, x3, rfl⟩
  have h4 : s.read [b0, b1, b2, b3]
      = { s with msg := (beValue [b2, b3] : Int) - 4, hdr := 4, hdrBuf := [b0, b1, b2, b3],
                 buf := s.buf ++ [b0, b1, b2, b3] } := by
    simp [Framer.read, Framer.step, h0, hx]
  have hh : 4 ≤ (s.read [b0, b1, b2, b3]).hdr := by rw [h4]
  have hm : (s.read [b0, b1, b2, b3]).msg ≤ 0 := by
    rw [h4]; simp only; omega
  refine ⟨by rw [h4], by rw [h4], by rw [h4], fun b => Framer.step_stalled _ b hh hm,
    Framer.reads_stalled _ chunks hh hm, ?_⟩
  rw [Framer.reads_stalled _ chunks hh hm, h4]

/-- Witness of claim C19: after the header 01 00 00 04 the initial framer ignores the eight
bytes of a following well-formed message and hands nothing to Full. -/
theorem Framer_stalls_on_short_length_witness :
    (Framer.init.read [1, 0, 0, 4]).hdr = 4 ∧
    (Framer.init.read [1, 0, 0, 4]).msg = (beValue [0, 4] : Int) - 4 ∧
    (Framer.init.read [1, 0, 0, 4]).full = Framer.init.full ∧
    (∀ b, (Framer.init.read [1, 0, 0, 4]).step b = Framer.init.read [1, 0, 0, 4]) ∧
    (Framer.init.read [1, 0, 0, 4]).reads [[1, 14, 0, 8], [0, 0, 0, 7]]
      = Framer.init.read [1, 0, 0, 4] ∧
    ((Framer.init.read [1, 0, 0, 4]).reads [[1, 14, 0, 8], [0, 0, 0, 7]]).full
      = Framer.init.full :=
  Framer_stalls_on_short_length Framer.init 1 0 0 4 [[1, 14, 0, 8], [0, 0, 0, 7]] rfl rfl
    (by decide)

theorem Pool.step_ids_perm (p : Pool) (st : PoolStep) : (p.step st).ids.Perm p.ids := by
  obtain ⟨E, F, fr, pa, alive⟩ := p
  cases st with
  | framerTake =>
    cases fr with
    | some b => exact List.Perm.refl _
    | none =>
      cases E with
      | nil => exact List.Perm.refl _
      | cons b rest =>
        simp only [Pool.step, Pool.ids, Pool.buffers, Option.toList, List.map_append,
          List.map_cons, List.map_nil, List.append_nil]
        rw [← Multiset.coe_eq_coe]
        simp only [← Multiset.coe_add, ← Multiset.cons_coe, ← Multiset.singleton_add]
        abel
  | framerWrite bs =>
    cases fr with
    | none => exact List.Perm.refl _
    | some b =>
      simp [Pool.step, Pool.ids, Pool.buffers]
  | framerPush =>
    cases fr with
    | none => exact List.Perm.refl _
    | some b =>
      by_cases h : F.length < 50
      · simp only [Pool.step, h, if_true, Pool.ids, Pool.buffers, Option.toList,
          List.map_append, List.map_cons, List.map_nil, List.append_nil]
        rw [← Multiset.coe_eq_coe]
        simp only [← Multiset.coe_add, ← Multiset.cons_coe, ← Multiset.singleton_add]
        abel
      · simp [Pool.step, h]
  | parserTake =>
    cases alive with
    | false => exact List.Perm.refl _
    | true =>
      cases pa with
      | some b => exact List.Perm.refl _
      | none =>
        cases F with
        | nil => exact List.Perm.refl _
        | cons b rest =>
          simp only [Pool.step, Pool.ids, Pool.buffers, Option.toList, List.map_append,
            List.map_cons, List.map_nil, List.append_nil]
          rw [← Multiset.coe_eq_coe]
          simp only [← Multiset.coe_add, ← Multiset.cons_coe, ← Multiset.singleton_add]
          abel
  | parserDone r =>
    cases alive with
    | false => exact List.Perm.refl _
    | true =>
      cases pa with
      | none => exact List.Perm.refl _
      | some b =>
        cases r with
        | neither => exact List.Perm.refl _
        | panic => exact List.Perm.refl _
        | message =>
          by_cases h : E.length < 50
          · simp only [Pool.step, h, if_true, Pool.ids, Pool.buffers, Option.toList,
              List.map_append, List.map_cons, List.map_nil, List.append_nil]
            rw [← Multiset.coe_eq_coe]
            simp only [← Multiset.coe_add, ← Multiset.cons_coe, ← Multiset.singleton_add]
            abel
          · simp [Pool.step, h]
        | error =>
          by_cases h : E.length < 50
          · simp only [Pool.step, h, if_true, Pool.ids, Pool.buffers, Option.toList,
              List.map_append, List.map_cons, List.map_nil, List.append_nil]
            rw [← Multiset.coe_eq_coe]
            simp only [← Multiset.coe_add, ← Multiset.cons_coe, ← Multiset.singleton_add]
            abel
          · simp [Pool.step, h]


theorem Pool.step_empty_reset (p : Pool) (st : PoolStep)
    (h : ∀ b ∈ p.Empty, b.bytes = []) : ∀ b ∈ (p.step st).Empty, b.bytes = [] := by
  obtain ⟨E, F, fr, pa, alive⟩ := p
  cases st with
  | framerTake =>
    cases fr with
    | some b => exact h
    | none =>
      cases E with
      | nil => exact h
      | cons b rest =>
        intro x hx
        exact h x (List.mem_cons_of_mem _ hx)
  | framerWrite bs =>
    cases fr with
    | none => exact h
    | some b => exact h
  | framerPush =>
    cases fr with
    | none => exact h
    | some b =>
      by_cases hF : F.length < 50
      · simpa [Pool.step, hF] using h
      · simpa [Pool.step, hF] using h
  | parserTake =>
    cases alive with
    | false => exact h
    | true =>
      cases pa with
      | some b => exact h
      | none =>
        cases F with
        | nil => exact h
        | cons b rest => exact h
  | parserDone r =>
    cases alive with
    | false => exact h
    | true =>
      cases pa with
      | none => exact h
      | some b =>
        cases r with
        | neither => exact h
        | panic => exact h
        | message =>
          by_cases hE : E.length < 50
          · intro x hx
            simp only [Pool.step, hE, if_true, List.mem_append, List.mem_singleton] at hx
            rcases hx with hx | rfl
            · exact h x hx
            · rfl
          · simpa [Pool.step, hE] using h
        | error =>
          by_cases hE : E.length < 50
          · intro x hx
            simp only [Pool.step, hE, if_true, List.mem_append, List.mem_singleton] at hx
            rcases hx with hx | rfl
            · exact h x hx
            · rfl
          · simpa [Pool.step, hE] using h

theorem Pool.run_invariant (steps : List PoolStep) :
    ∀ p : Pool, (∀ b ∈ p.Empty, b.bytes = []) →
      (p.run steps).ids.Perm p.ids ∧ ∀ b ∈ (p.run steps).Empty, b.bytes = [] := by
  induction steps with
  | nil => intro p h; exact ⟨List.Perm.refl _, h⟩
  | cons st rest ih =>
    intro p h
    obtain ⟨h1, h2⟩ := ih (p.step st) (Pool.step_empty_reset p st h)
    exact ⟨h1.trans (Pool.step_ids_perm p st), h2⟩

/-- Claim C18, amended: every pool state reachable from NewBufferPool by steps of the framer
and of the parser holds exactly 50 buffers, the identities 0..49 each in exactly one of Empty,
Full, the framer and the parser, and every buffer in Empty is empty. The parser resets and
returns its buffer after a message or an error; after a decode that returned neither (or a
panic) the parse task stops with the buffer still in its hands, not reset. -/
theorem Pool_buffers_conserved (steps : List PoolStep) :
    (NewBufferPool.run steps).ids.Perm (List.range 50) ∧
    (NewBufferPool.run steps).buffers.length = 50 ∧
    (NewBufferPool.run steps).ids.Nodup ∧
    (∀ b ∈ (NewBufferPool.run steps).Empty, b.bytes = []) := by
  have hinit : NewBufferPool.ids = List.range 50 := by decide
  have hempty : ∀ b ∈ NewBufferPool.Empty, b.bytes = [] := by
    intro b hb
    simp only [NewBufferPool, List.mem_map] at hb
    obtain ⟨i, _, rfl⟩ := hb
    rfl
  obtain ⟨h1, h2⟩ := Pool.run_invariant steps NewBufferPool hempty
  rw [hinit] at h1
  refine ⟨h1, ?_, ?_, h2⟩
  · have := h1.length_eq
    simpa [Pool.ids] using this
  · exact h1.nodup_iff.mpr (List.nodup_range 50)

/-- Counterexample to claim C18 as stated: when decoding returns neither a message nor an
error, the parser does not reset the buffer and does not push it to Empty (the contract
violation panic comes first); the buffer stays, filled, with the stopped parse task and Empty
holds 49 buffers. After a message the buffer is back in Empty. -/
theorem Pool_neither_keeps_buffer :
    (NewBufferPool.run [.framerTake, .framerWrite [1, 14, 0, 8, 0, 0, 0, 7], .framerPush,
        .parserTake, .parserDone .neither]).parser
      = some { id := 0, bytes := [1, 14, 0, 8, 0, 0, 0, 7] } ∧
    (NewBufferPool.run [.framerTake, .framerWrite [1, 14, 0, 8, 0, 0, 0, 7], .framerPush,
        .parserTake, .parserDone .neither]).Empty.length = 49 ∧
    (NewBufferPool.run [.framerTake, .framerWrite [1, 14, 0, 8, 0, 0, 0, 7], .framerPush,
        .parserTake, .parserDone .neither]).parsing = false ∧
    (NewBufferPool.run [.framerTake, .framerWrite [1, 14, 0, 8, 0, 0, 0, 7], .framerPush,
        .parserTake, .parserDone .message]).parser = none ∧
    (NewBufferPool.run [.framerTake, .framerWrite [1, 14, 0, 8, 0, 0, 0, 7], .framerPush,
        .parserTake, .parserDone .message]).Empty.length = 50 := by
  decide

end Stream

/-! ## The switch manager -/

namespace Core

open Openflow10

/-- Without a waiting goroutine nothing runs. -/
theorem Dispatch.run_nil (d : Dispatch) (k : Nat) (h : d.waiting = []) : d.run k = d := by
  induction k with
  | zero => rfl
  | succ k ih =>
    have e : d.runOne = d := by simp [Dispatch.runOne, h]
    simp only [Dispatch.run, e, ih]

/-- With a registered waiter, whatever the schedule: once the goroutine has run, the only send
is the message to the waiter and the registration is deleted, the other entries untouched. -/
theorem distributeReceived_waiter (requests : Nat → Option Chan)
    (messageChans : Nat → List Chan) (sched : Nat → Nat) (p : Msg) (w : Chan)
    (h : requests p.XID = some w) :
    (distributeReceived requests messageChans sched p).settle.sent = [(w, p)] ∧
    (distributeReceived requests messageChans sched p).settle.waiting = [] ∧
    (distributeReceived requests messageChans sched p).settle.requests p.XID = none ∧
    ∀ xid, xid ≠ p.XID →
      (distributeReceived requests messageChans sched p).settle.requests xid = requests xid := by
  simp only [distributeReceived, h]
  cases hs : sched 0 with
  | zero =>
    simp only [Dispatch.run, Dispatch.settle, List.length_singleton, Dispatch.runOne,
      List.nil_append, if_true, true_and]
    exact fun xid hx => by simp [hx]
  | succ k =>
    simp only [Dispatch.run, Dispatch.runOne, List.nil_append]
    rw [Dispatch.run_nil _ k rfl]
    simp only [Dispatch.settle, List.length_nil, Dispatch.run, if_true, true_and]
    exact fun xid hx => by simp [hx]

/-- The loop when every goroutine runs as soon as it is started. -/
theorem Dispatch.loop_atOnce (p : Msg) (chans : List Chan) :
    ∀ (d : Dispatch) (i : Nat), d.waiting = [] →
      (Dispatch.loop p atOnce d i chans).sent = d.sent ++ chans.map (fun ch => (ch, p)) ∧
      (Dispatch.loop p atOnce d i chans).waiting = [] ∧
      (Dispatch.loop p atOnce d i chans).requests = d.requests := by
  induction chans with
  | nil => intro d i h; simp [Dispatch.loop, h]
  | cons c rest ih =>
    intro d i h
    simp only [Dispatch.loop, atOnce, Dispatch.run, Dispatch.runOne, h, List.nil_append]
    obtain ⟨h1, h2, h3⟩ := ih { d with ch := some c, waiting := [], sent := d.sent ++ [(c, p)] }
      (i + 1) rfl
    simp only [atOnce] at h1 h2 h3
    refine ⟨by rw [h1]; simp, h2, h3⟩

/-- The loop when no goroutine runs before it has ended: all of them wait, and `ch` holds the
last channel. -/
theorem Dispatch.loop_afterReturn (p : Msg) (chans : List Chan) :
    ∀ (d : Dispatch) (i : Nat),
      (Dispatch.loop p afterReturn d i chans).sent = d.sent ∧
      (Dispatch.loop p afterReturn d i chans).waiting
        = d.waiting ++ List.replicate chans.length (Routine.toSubscriber p) ∧
      (Dispatch.loop p afterReturn d i chans).requests = d.requests ∧
      (Dispatch.loop p afterReturn d i chans).ch = (chans.getLast?).or d.ch := by
  induction chans with
  | nil => intro d i; simp [Dispatch.loop]
  | cons c rest ih =>
    intro d i
    simp only [Dispatch.loop, afterReturn, Dispatch.run]
    obtain ⟨h1, h2, h3, h4⟩ := ih
      { d with ch := some c, waiting := d.waiting ++ [Routine.toSubscriber p] } (i + 1)
    simp only [afterReturn] at h1 h2 h3 h4
    refine ⟨h1, ?_, h3, ?_⟩
    · rw [h2]; simp [List.replicate_succ]
    · rw [h4]
      cases rest with
      | nil => simp
      | cons c2 r2 =>
        have hx : ∃ x, (c2 :: r2).getLast? = some x :=
          ⟨_, List.getLast?_eq_getLast _ (List.cons_ne_nil c2 r2)⟩
        obtain ⟨x, hx⟩ := hx
        have e : (c :: c2 :: r2).getLast? = some x := by
          rw [List.getLast?_cons_cons]; exact hx
        rw [hx, e]; rfl

/-- Subscriber goroutines that run while `ch` holds `c` all send on `c`. -/
theorem Dispatch.run_subscribers (p : Msg) (c : Chan) (k : Nat) :
    ∀ (d : Dispatch), d.ch = some c → d.waiting = List.replicate k (Routine.toSubscriber p) →
      (d.run k).sent = d.sent ++ List.replicate k (c, p) ∧ (d.run k).waiting = [] ∧
      (d.run k).requests = d.requests := by
  induction k with
  | zero => intro d _ hw; simp [Dispatch.run, hw]
  | succ k ih =>
    intro d hc hw
    have e : d.runOne = { d with waiting := List.replicate k (Routine.toSubscriber p)
                                 sent := d.sent ++ [(c, p)] } := by
      simp [Dispatch.runOne, hw, hc, List.replicate_succ]
    obtain ⟨h1, h2, h3⟩ := ih { d with waiting := List.replicate k (Routine.toSubscriber p)
                                       sent := d.sent ++ [(c, p)] } hc rfl
    simp only [Dispatch.run, e]
    refine ⟨by rw [h1]; simp [List.replicate_succ], h2, h3⟩

/-- Without a waiter, when no goroutine runs before the loop has ended, every send goes to the
last subscriber channel of the list. -/
theorem distributeReceived_afterReturn (requests : Nat → Option Chan)
    (messageChans : Nat → List Chan) (p : Msg) (cs : List Chan) (c : Chan)
    (h : requests p.XID = none) (hc : messageChans p.Type_ = cs ++ [c]) :
    (distributeReceived requests messageChans afterReturn p).settle.sent
      = List.replicate (cs.length + 1) (c, p) ∧
    (distributeReceived requests messageChans afterReturn p).settle.requests = requests := by
  obtain ⟨h1, h2, h3, h4⟩ := Dispatch.loop_afterReturn p (cs ++ [c])
    { requests := requests, ch := none, waiting := [], sent := [] } 0
  simp only [List.nil_append, List.length_append, List.length_singleton] at h1 h2 h3
  have h4' : (Dispatch.loop p afterReturn
      { requests := requests, ch := none, waiting := [], sent := [] } 0 (cs ++ [c])).ch
      = some c := by rw [h4]; simp
  obtain ⟨r1, _, r3⟩ := Dispatch.run_subscribers p c (cs.length + 1) _ h4' h2
  simp only [distributeReceived, h, hc, Dispatch.settle, h2, List.length_replicate]
  exact ⟨by rw [r1, h1]; simp, by rw [r3, h3]⟩

/-- Without a waiter, when every goroutine runs as soon as it is started, each subscriber
channel of the message type gets the message once, in order. -/
theorem distributeReceived_atOnce (requests : Nat → Option Chan)
    (messageChans : Nat → List Chan) (p : Msg) (h : requests p.XID = none) :
    (distributeReceived requests messageChans atOnce p).settle.sent
      = (messageChans p.Type_).map (fun ch => (ch, p)) ∧
    (distributeReceived requests messageChans atOnce p).settle.requests = requests := by
  obtain ⟨h1, h2, h3⟩ := Dispatch.loop_atOnce p (messageChans p.Type_)
    { requests := requests, ch := none, waiting := [], sent := [] } 0 rfl
  simp only [distributeReceived, h, Dispatch.settle, h2, List.length_nil, Dispatch.run]
  exact ⟨by rw [h1]; simp, h3⟩

/-- Claim C8 (dispatch) fails in the code for a message without waiter and two subscribers of
its type. The two goroutines of the loop share the loop variable `ch`; when they run after the
loop, as they do when the caller is not interrupted, `ch` holds the last channel: both sends
go to subscriber 201, which gets the message twice, and subscriber 200 gets nothing. For a
message with a waiter the one send goes to the waiter, but the registration is still in the
table when `distributeReceived` returns and is deleted only once the send has been
received. -/
theorem distributeReceived_shared_loop_variable :
    oneWaiter (barrierReply 8).XID = none ∧
    twoSubscribers (barrierReply 8).Type_ = [200, 201] ∧
    (distributeReceived oneWaiter twoSubscribers afterReturn (barrierReply 8)).waiting
      = [Routine.toSubscriber (barrierReply 8), Routine.toSubscriber (barrierReply 8)] ∧
    (distributeReceived oneWaiter twoSubscribers afterReturn (barrierReply 8)).ch = some 201 ∧
    (distributeReceived oneWaiter twoSubscribers afterReturn (barrierReply 8)).settle.sent
      = [(201, barrierReply 8), (201, barrierReply 8)] ∧
    (200, barrierReply 8) ∉
      (distributeReceived oneWaiter twoSubscribers afterReturn (barrierReply 8)).settle.sent ∧
    (distributeReceived oneWaiter twoSubscribers afterReturn (barrierReply 7)).requests 7
      = some 100 ∧
    (distributeReceived oneWaiter twoSubscribers afterReturn (barrierReply 7)).settle.sent
      = [(100, barrierReply 7)] ∧
    (distributeReceived oneWaiter twoSubscribers afterReturn (barrierReply 7)).settle.requests 7
      = none := by
  refine ⟨by decide, by decide, by decide, by decide, by decide, by decide, by decide,
    by decide, by decide⟩

/-- When sending or reading the Hello fails, `NewOpenFlowSwitch` closes the connection and
leaves the registry and the tasks as they were. -/
theorem NewOpenFlowSwitch_hello_failure (m : Manager) (conn : Conn) (io : HandshakeOutcome)
    (h : io.sendHello.isSome = true ∨ io.readHello.isSome = true) :
    (NewOpenFlowSwitch m conn io).Switches = m.Switches ∧
    (NewOpenFlowSwitch m conn io).tasks = m.tasks ∧
    (NewOpenFlowSwitch m conn io).closed = m.closed ++ [conn] := by
  unfold NewOpenFlowSwitch
  rcases h with h | h
  · simp [h]
  · by_cases h1 : io.sendHello.isSome = true <;> simp [h, h1]

/-- Claim C9, the code at the failing input: with an empty registry, a handshake whose
FeaturesRequest cannot be sent (and whose reply cannot be read) still registers a Switch under
the datapath id left in `res`, with the closed connection, and starts its two tasks. -/
theorem NewOpenFlowSwitch_mutates_after_failed_features_exchange :
    Manager.empty.Switches (HardwareAddr.String featuresFail.res.DPID) = none ∧
    ((NewOpenFlowSwitch Manager.empty 1 featuresFail).Switches
        (HardwareAddr.String featuresFail.res.DPID)).map (fun sw => (sw.conn, sw.DPID))
      = some (1, featuresFail.res.DPID) ∧
    (NewOpenFlowSwitch Manager.empty 1 featuresFail).tasks
      = [Task.SendSync "00:00:00:00:00:00:00:00", Task.Receive "00:00:00:00:00:00:00:00"] ∧
    (NewOpenFlowSwitch Manager.empty 1 featuresFail).closed = [1, 1] := by
  refine ⟨rfl, ?_, ?_, ?_⟩ <;> decide

/-- Claim C14: reconnection keeps one entry per datapath id. When the registry holds the
Switch sw under the datapath id of a successful handshake, the registry afterwards holds sw
with its connection replaced by the new one under that id, every other entry unchanged and the
same set of keys; the send and receive tasks of sw are started and no connection is closed. -/
theorem NewOpenFlowSwitch_reconnect (m : Manager) (conn : Conn) (io : HandshakeOutcome)
    (sw : Switch) (hok : io.ok)
    (hd : m.Switches (HardwareAddr.String io.res.DPID) = some sw) :
    (NewOpenFlowSwitch m conn io).Switches (HardwareAddr.String io.res.DPID)
      = some { sw with conn := conn } ∧
    (∀ k, k ≠ HardwareAddr.String io.res.DPID →
      (NewOpenFlowSwitch m conn io).Switches k = m.Switches k) ∧
    (∀ k, ((NewOpenFlowSwitch m conn io).Switches k).isSome = (m.Switches k).isSome) ∧
    (NewOpenFlowSwitch m conn io).tasks
      = m.tasks ++ [Task.SendSync (HardwareAddr.String sw.DPID),
                    Task.Receive (HardwareAddr.String sw.DPID)] ∧
    (NewOpenFlowSwitch m conn io).closed = m.closed := by
  obtain ⟨h1, h2, h3, h4⟩ := hok
  have e : NewOpenFlowSwitch m conn io =
      { m with
        Switches := fun k =>
          if k = HardwareAddr.String io.res.DPID then some { sw with conn := conn }
          else m.Switches k
        tasks := m.tasks ++ [Task.SendSync (HardwareAddr.String sw.DPID),
                             Task.Receive (HardwareAddr.String sw.DPID)] } := by
    simp only [NewOpenFlowSwitch, h1, h2, h3, h4, Option.isSome_none, Bool.false_eq_true,
      if_false, hd]
  rw [e]
  refine ⟨by simp, fun k hk => by simp [hk], fun k => ?_, rfl, rfl⟩
  by_cases hk : k = HardwareAddr.String io.res.DPID
  · simp [hk, hd]
  · simp [hk]

theorem portTable_append (ps : List PhyPort) (p : PhyPort) (no : Nat) :
    portTable (ps ++ [p]) no = if no = p.PortNo then some p else portTable ps no := by
  simp [portTable, List.foldl_append]

/-- The port table holds, under each number, the last port of the reply with that number. -/
theorem portTable_eq_find (ps : List PhyPort) (no : Nat) :
    portTable ps no = ps.reverse.find? (fun p => decide (p.PortNo = no)) := by
  induction ps using List.reverseRecOn with
  | nil => rfl
  | append_singleton ps p ih =>
    rw [portTable_append, List.reverse_append]
    by_cases h : no = p.PortNo
    · simp [h]
    · have h2 : ¬ p.PortNo = no := fun e => h e.symm
      simp [h, h2, ih]


/-- Claim C15, amended: first connection of a switch. When the registry has no entry for the
datapath id d of a successful handshake, afterwards it holds one Switch under d, with the new
connection, an empty waiter table and a port table that maps each port number to the last port
of the reply with that number: the entry p.PortNo -> p for every port p whose number is not
repeated later in the list, and no entry for numbers absent from the list. All other registry
entries are unchanged and the send and receive tasks of d are started. -/
theorem NewOpenFlowSwitch_first_connection (m : Manager) (conn : Conn) (io : HandshakeOutcome)
    (hok : io.ok) (hd : m.Switches (HardwareAddr.String io.res.DPID) = none) :
    ∃ s, (NewOpenFlowSwitch m conn io).Switches (HardwareAddr.String io.res.DPID) = some s ∧
      s.conn = conn ∧ s.DPID = io.res.DPID ∧
      (∀ xid, s.requests xid = none) ∧
      (∀ no, s.Ports no = io.res.Ports.reverse.find? (fun p => decide (p.PortNo = no))) ∧
      (∀ ps₁ p ps₂, io.res.Ports = ps₁ ++ p :: ps₂ → (∀ q ∈ ps₂, q.PortNo ≠ p.PortNo) →
        s.Ports p.PortNo = some p) ∧
      (∀ no, (∀ p ∈ io.res.Ports, p.PortNo ≠ no) → s.Ports no = none) ∧
      (∀ k, k ≠ HardwareAddr.String io.res.DPID →
        (NewOpenFlowSwitch m conn io).Switches k = m.Switches k) ∧
      (NewOpenFlowSwitch m conn io).tasks
        = m.tasks ++ [Task.SendSync (HardwareAddr.String io.res.DPID),
                      Task.Receive (HardwareAddr.String io.res.DPID)] := by
  obtain ⟨h1, h2, h3, h4⟩ := hok
  have e : NewOpenFlowSwitch m conn io =
      { m with
        tasks := m.tasks ++ [Task.SendSync (HardwareAddr.String io.res.DPID),
                             Task.Receive (HardwareAddr.String io.res.DPID)]
        Switches := fun k =>
          if k = HardwareAddr.String io.res.DPID then
            some { conn := conn, DPID := io.res.DPID, Ports := portTable io.res.Ports,
                   requests := fun _ => none }
          else m.Switches k } := by
    simp only [NewOpenFlowSwitch, h1, h2, h3, h4, Option.isSome_none, Bool.false_eq_true,
      if_false, hd]
  rw [e]
  refine ⟨{ conn := conn, DPID := io.res.DPID, Ports := portTable io.res.Ports,
             requests := fun _ => none }, by simp, rfl, rfl, fun _ => rfl,
    fun no => portTable_eq_find _ no, ?_, ?_, fun k hk => by simp [hk], rfl⟩
  · intro ps₁ p ps₂ hps hlast
    simp only [portTable_eq_find, hps, List.reverse_append, List.reverse_cons,
      List.append_assoc, List.singleton_append]
    rw [List.find?_append]
    have hnone : ps₂.reverse.find? (fun q => decide (q.PortNo = p.PortNo)) = none := by
      simp only [List.find?_eq_none, List.mem_reverse, decide_eq_true_eq]
      exact fun q hq => hlast q hq
    simp [hnone]
  · intro no hno
    simp only [portTable_eq_find, List.find?_eq_none, List.mem_reverse, decide_eq_true_eq]
    exact hno


/-- The registry after the first handshake holds the sample switch. -/
theorem managerOne_switch :
    managerOne.Switches (HardwareAddr.String handshakeOk.res.DPID) = some switchOne := by
  simp [managerOne, NewOpenFlowSwitch, handshakeOk, Manager.empty, switchOne]

/-- Witness of claim C14: a second successful handshake of the same datapath id on connection 2
keeps the sample switch in the registry with its connection replaced. -/
theorem NewOpenFlowSwitch_reconnect_witness :
    (NewOpenFlowSwitch managerOne 2 handshakeOk).Switches
        (HardwareAddr.String handshakeOk.res.DPID) = some { switchOne with conn := 2 } ∧
    (∀ k, k ≠ HardwareAddr.String handshakeOk.res.DPID →
      (NewOpenFlowSwitch managerOne 2 handshakeOk).Switches k = managerOne.Switches k) ∧
    (∀ k, ((NewOpenFlowSwitch managerOne 2 handshakeOk).Switches k).isSome
      = (managerOne.Switches k).isSome) ∧
    (NewOpenFlowSwitch managerOne 2 handshakeOk).tasks
      = managerOne.tasks ++ [Task.SendSync (HardwareAddr.String switchOne.DPID),
                             Task.Receive (HardwareAddr.String switchOne.DPID)] ∧
    (NewOpenFlowSwitch managerOne 2 handshakeOk).closed = managerOne.closed :=
  NewOpenFlowSwitch_reconnect managerOne 2 handshakeOk switchOne ⟨rfl, rfl, rfl, rfl⟩
    managerOne_switch

/-- Witness of claim C15 as amended: the first handshake of datapath id 00:16:3e:00:00:01 with
the ports 1 and 2 on an empty registry. -/
theorem NewOpenFlowSwitch_first_connection_witness :
    ∃ s, (NewOpenFlowSwitch Manager.empty 1 handshakeOk).Switches
        (HardwareAddr.String handshakeOk.res.DPID) = some s ∧
      s.conn = 1 ∧ s.DPID = handshakeOk.res.DPID ∧
      (∀ xid, s.requests xid = none) ∧
      (∀ no, s.Ports no
        = handshakeOk.res.Ports.reverse.find? (fun p => decide (p.PortNo = no))) ∧
      (∀ ps₁ p ps₂, handshakeOk.res.Ports = ps₁ ++ p :: ps₂ →
        (∀ q ∈ ps₂, q.PortNo ≠ p.PortNo) → s.Ports p.PortNo = some p) ∧
      (∀ no, (∀ p ∈ handshakeOk.res.Ports, p.PortNo ≠ no) → s.Ports no = none) ∧
      (∀ k, k ≠ HardwareAddr.String handshakeOk.res.DPID →
        (NewOpenFlowSwitch Manager.empty 1 handshakeOk).Switches k = Manager.empty.Switches k) ∧
      (NewOpenFlowSwitch Manager.empty 1 handshakeOk).tasks
        = Manager.empty.tasks ++ [Task.SendSync (HardwareAddr.String handshakeOk.res.DPID),
                                  Task.Receive (HardwareAddr.String handshakeOk.res.DPID)] :=
  NewOpenFlowSwitch_first_connection Manager.empty 1 handshakeOk ⟨rfl, rfl, rfl, rfl⟩ rfl

/-- Counterexample to claim C15 as stated: with a reply whose two ports both carry port
number 1, the port eth1 is in the list but the port table maps 1 to eth2, the later port. -/
theorem NewOpenFlowSwitch_same_port_number_overwrites :
    handshakeSamePortNo.ok ∧
    Manager.empty.Switches (HardwareAddr.String handshakeSamePortNo.res.DPID) = none ∧
    ({ PortNo := 1, Name := "eth1" } : PhyPort) ∈ handshakeSamePortNo.res.Ports ∧
    ((NewOpenFlowSwitch Manager.empty 1 handshakeSamePortNo).Switches
        (HardwareAddr.String handshakeSamePortNo.res.DPID)).bind (fun s => s.Ports 1)
      = some { PortNo := 1, Name := "eth2" } := by
  refine ⟨⟨rfl, rfl, rfl, rfl⟩, rfl, by decide, by decide⟩

/-- Claim C16: SendAndReceive registers the waiter. For any send that leaves the waiter table
alone, SendAndReceive returns the fresh handle with a nil error exactly when the send did not
fail, and then the waiter table maps the request's XID to the handle and is unchanged at every
other id; when the send fails it returns a nil handle, the error, and a waiter table with no
entry for that XID. With the Send of the code, which never fails, the handle is always
returned and registered. -/
theorem SendAndReceive_registers_waiter (send : Switch → Packet → Sent) (s : Switch)
    (req : Packet) (fresh : Chan)
    (hsend : ∀ s' : Switch, (send s' req).self.requests = s'.requests) :
    (((Switch.SendAndReceiveWith send s req fresh).p = some fresh ∧
        (Switch.SendAndReceiveWith send s req fresh).err = none) ↔
      (send { s with requests := fun xid => if xid = req.XID then some fresh
                                            else s.requests xid } req).err = none) ∧
    ((Switch.SendAndReceiveWith send s req fresh).err = none →
      (Switch.SendAndReceiveWith send s req fresh).self.requests req.XID = some fresh ∧
      ∀ xid, xid ≠ req.XID →
        (Switch.SendAndReceiveWith send s req fresh).self.requests xid = s.requests xid) ∧
    (∀ e, (send { s with requests := fun xid => if xid = req.XID then some fresh
                                                else s.requests xid } req).err = some e →
      (Switch.SendAndReceiveWith send s req fresh).p = none ∧
      (Switch.SendAndReceiveWith send s req fresh).err = some e ∧
      (Switch.SendAndReceiveWith send s req fresh).self.requests req.XID = none) ∧
    ((Switch.SendAndReceive s req fresh).p = some fresh ∧
      (Switch.SendAndReceive s req fresh).err = none ∧
      (Switch.SendAndReceive s req fresh).self.requests req.XID = some fresh ∧
      ∀ xid, xid ≠ req.XID →
        (Switch.SendAndReceive s req fresh).self.requests xid = s.requests xid) := by
  have hreq := hsend { s with requests := fun xid => if xid = req.XID then some fresh
                                                     else s.requests xid }
  cases herr : (send { s with requests := fun xid => if xid = req.XID then some fresh
                                                     else s.requests xid } req).err with
  | none =>
    refine ⟨by simp [Switch.SendAndReceiveWith, herr], fun _ => ?_, by simp, ?_⟩
    · simp only [Switch.SendAndReceiveWith, herr, Option.isSome_none, Bool.false_eq_true,
        if_false, hreq]
      exact ⟨by simp, fun xid hx => by simp [hx]⟩
    · refine ⟨rfl, rfl, ?_, fun xid hx => ?_⟩
      · simp [Switch.SendAndReceive, Switch.SendAndReceiveWith, Switch.Send]
      · simp [Switch.SendAndReceive, Switch.SendAndReceiveWith, Switch.Send, hx]
  | some e =>
    refine ⟨by simp [Switch.SendAndReceiveWith, herr], fun h => ?_, fun e' he => ?_, ?_⟩
    · simp [Switch.SendAndReceiveWith, herr] at h
    · simp only [Option.some.injEq] at he
      subst he
      simp [Switch.SendAndReceiveWith, herr]
    · refine ⟨rfl, rfl, ?_, fun xid hx => ?_⟩
      · simp [Switch.SendAndReceive, Switch.SendAndReceiveWith, Switch.Send]
      · simp [Switch.SendAndReceive, Switch.SendAndReceiveWith, Switch.Send, hx]

theorem GetSwitch_unknown (m : Manager) (dpid : String) (h : m.Switches dpid = none) :
    GetSwitch m dpid = (none, false) := by
  simp [GetSwitch, h]

theorem DisconnectSwitch_unknown (m : Manager) (dpid : String) (h : m.Switches dpid = none) :
    DisconnectSwitch m dpid = .fault := by
  simp [DisconnectSwitch, h]

theorem DisconnectSwitch_known (m : Manager) (dpid : String) (sw : Switch)
    (h : m.Switches dpid = some sw) :
    ∃ r, DisconnectSwitch m dpid = .ok r ∧ r.Switches dpid = none ∧
      (∀ k, k ≠ dpid → r.Switches k = m.Switches k) ∧ r.closed = m.closed ++ [sw.conn] := by
  refine ⟨{ Switches := fun k => if k = dpid then none else m.Switches k
            closed := m.closed ++ [sw.conn]
            tasks := m.tasks }, by simp only [DisconnectSwitch, h], by simp,
    fun k hk => by simp [hk], rfl⟩

theorem GetPort_unknown (s : Switch) (portNo : Nat) (h : s.Ports portNo = none) :
    s.GetPort portNo = (none, some "ERROR::Undefined port number") := by
  simp [Switch.GetPort, h]

theorem GetPort_known (s : Switch) (portNo : Nat) (port : PhyPort)
    (h : s.Ports portNo = some port) : s.GetPort portNo = (some port, none) := by
  simp [Switch.GetPort, h]

/-- Claim C17 (unknown keys are reported without side effects) fails in the code for
DisconnectSwitch: on a datapath id that is not in the registry it dereferences the nil Switch
of the failed lookup and faults, where GetSwitch returns (nil, false) on the same registry.
GetPort behaves as claimed: a nil port and an error for an unknown port number, the port and
no error for a known one. -/
theorem DisconnectSwitch_faults_on_unknown_dpid :
    Manager.empty.Switches "00:16:3e:00:00:01" = none ∧
    DisconnectSwitch Manager.empty "00:16:3e:00:00:01" = .fault ∧
    GetSwitch Manager.empty "00:16:3e:00:00:01" = (none, false) ∧
    switchOne.Ports 3 = none ∧
    switchOne.GetPort 3 = (none, some "ERROR::Undefined port number") ∧
    switchOne.GetPort 1 = (some { PortNo := 1, Name := "eth1" }, none) :=
  ⟨rfl, rfl, rfl, by decide, by decide, by decide⟩

/-- Witness of claim C16: on the sample switch a failing send returns no handle, the error and
a waiter table without the transaction id 7, and the send of the code returns the handle 100
registered under 7 with no error. -/
theorem SendAndReceive_registers_waiter_witness :
    ((Switch.SendAndReceiveWith failingSend switchOne { XID := 7, Data := [] } 100).p = none ∧
      (Switch.SendAndReceiveWith failingSend switchOne { XID := 7, Data := [] } 100).err
        = some "send failed" ∧
      (Switch.SendAndReceiveWith failingSend switchOne
        { XID := 7, Data := [] } 100).self.requests 7 = none) ∧
    ((Switch.SendAndReceive switchOne { XID := 7, Data := [] } 100).p = some 100 ∧
      (Switch.SendAndReceive switchOne { XID := 7, Data := [] } 100).err = none ∧
      (Switch.SendAndReceive switchOne { XID := 7, Data := [] } 100).self.requests 7
        = some 100 ∧
      ∀ xid, xid ≠ 7 →
        (Switch.SendAndReceive switchOne { XID := 7, Data := [] } 100).self.requests xid
          = switchOne.requests xid) :=
  ⟨(SendAndReceive_registers_waiter failingSend switchOne { XID := 7, Data := [] } 100
      (fun _ => rfl)).2.2.1 "send failed" rfl,
   (SendAndReceive_registers_waiter failingSend switchOne { XID := 7, Data := [] } 100
      (fun _ => rfl)).2.2.2⟩

end Core
